import Mathlib

/-!
Verification development for the LegalAi repository.

The repository consists of two FastAPI services built around an external
LLM text-generation call:

* `src/contract_draft.py` — a unified contract endpoint (`POST /api/contract`)
  with a relevance filter, an LLM-backed intent classifier, and a per-session
  store of drafted contracts;
* `src/app.py` — a legal-case upload / Q&A service
  (`POST /api/upload-case`, `POST /api/ask-question`).

This file shallowly embeds the parts of these programs that the claims are
about.  Python strings are modelled as `List Char`; the external LLM call is
modelled as a script of pre-arranged outcomes that is consumed one entry per
call, together with a record of the prompts sent; wall-clock timestamps
(`uuid.uuid1().time`) are abstracted away.

The session-store helper functions (`create_or_get_session`,
`get_active_contract`, `add_contract_to_session`, `get_contracts_summary`)
are *called* by `src/contract_draft.py` but not defined in any source file of
the repository; they are modelled from the specification (section 4.3), as is
the Output Normalizer of section 4.5, which likewise has no source under
`src/`.  These definitions carry a `Modelled from the spec:` doc comment.
-/

namespace LegalAi

/-- Python strings are modelled as lists of characters. -/
abbrev Text := List Char

/-- `str.lower()`. -/
def lowerT (t : Text) : Text := t.map Char.toLower

/-- `str.upper()`. -/
def upperT (t : Text) : Text := t.map Char.toUpper

/-- Whitespace characters recognised by Python's `str.strip()`
(the ones that can occur in the texts this development manipulates). -/
def isWsB (c : Char) : Bool := c == ' ' || c == '\n' || c == '\t' || c == '\r'

/-- `takeWhile` on `Text` with a `Bool` predicate (own definition so that all
equations used in proofs are under our control). -/
def takeWhileB (p : Char → Bool) : Text → Text
  | [] => []
  | c :: cs => if p c then c :: takeWhileB p cs else []

/-- `dropWhile` on `Text` with a `Bool` predicate. -/
def dropWhileB (p : Char → Bool) : Text → Text
  | [] => []
  | c :: cs => if p c then dropWhileB p cs else c :: cs

/-- `str.strip()`: drop leading and trailing whitespace. -/
def trimT (t : Text) : Text :=
  ((dropWhileB isWsB ((dropWhileB isWsB t).reverse)).reverse)

/-- Does `hay` start with `needle`?  (Helper for Python's `in` on strings.) -/
def startsWithT : Text → Text → Bool
  | _, [] => true
  | [], _ :: _ => false
  | a :: as, b :: bs => a == b && startsWithT as bs

/-- Python's substring test `needle in hay`. -/
def containsSub (hay needle : Text) : Bool :=
  match hay with
  | [] => needle.isEmpty
  | _ :: hs => startsWithT hay needle || containsSub hs needle

/-- Convert a list of string literals to a list of `Text`s. -/
def strs (l : List String) : List Text := l.map String.toList

/-- The apostrophe character (written via its code point). -/
def apos : Char := Char.ofNat 39

/-- The phrase `"what's up"` from `non_contract_phrases`. -/
def whatsUpT : Text := "what".toList ++ [apos] ++ "s up".toList

/-- The phrase `"how's it going"` from `non_contract_phrases`. -/
def howsItGoingT : Text := "how".toList ++ [apos] ++ "s it going".toList

/-- `non_contract_phrases` from `check_question_relevance`
(src/contract_draft.py lines 309–315). -/
def nonContractPhrases : List Text :=
  strs ["hi", "hello", "hey", "how are you", "good morning", "good afternoon",
        "good evening"] ++ [whatsUpT, howsItGoingT] ++
  strs ["nice to meet you",
        "weather", "food", "music", "movie", "sports", "game", "fun",
        "tell me about yourself", "who are you", "what can you do",
        "joke", "story", "recipe", "travel", "vacation", "hobby"]

/-- `contract_indicators` (src/contract_draft.py line 322). -/
def contractIndicators : List Text :=
  strs ["contract", "agreement", "lease", "landlord", "tenant", "party", "clause"]

/-- `contract_keywords` (src/contract_draft.py lines 327–341). -/
def contractKeywords : List Text :=
  strs ["contract", "agreement", "clause", "term", "provision", "party", "parties",
        "obligation", "liability", "breach", "termination", "renewal", "payment",
        "consideration", "warranty", "guarantee", "indemnity", "confidentiality",
        "employment", "service", "sale", "purchase", "lease", "rental", "rent",
        "price", "cost", "fee", "amount", "deposit", "penalty", "damages",
        "duration", "period", "deadline", "date", "schedule", "timeline",
        "property", "premises", "landlord", "tenant", "lessee", "lessor",
        "employer", "employee", "client", "contractor", "vendor", "supplier",
        "legal", "law", "regulation", "compliance", "jurisdiction", "governing",
        "arbitration", "mediation", "dispute", "resolution", "force majeure",
        "assignment", "subcontracting", "performance", "delivery", "acceptance",
        "intellectual property", "copyright", "trademark", "patent", "royalty",
        "scope", "specification", "requirement", "milestone", "deliverable"]

/-- `modification_keywords` (src/contract_draft.py line 348). -/
def modificationKeywords : List Text :=
  strs ["add", "remove", "change", "modify", "update", "edit", "include",
        "insert", "delete", "replace"]

/-- `contract_context` of the modification layer (src/contract_draft.py line 351). -/
def modContractContext : List Text :=
  strs ["contract", "agreement", "lease", "my contract", "the contract",
        "this contract"]

/-- `contract_question_patterns` (src/contract_draft.py lines 356–362). -/
def contractQuestionPatterns : List Text :=
  strs ["what is the", "what are the", "how much", "when is", "when does",
        "where is", "who is", "which", "explain", "clarify", "interpret",
        "in this agreement", "in this contract", "in the contract",
        "in the agreement",
        "according to", "based on", "under this", "terms of", "conditions of",
        "my contract", "the contract", "this contract"]

/-- `analysis_keywords` (src/contract_draft.py line 368). -/
def analysisKeywords : List Text :=
  strs ["analyze", "review", "summary", "risks", "analysis", "breakdown",
        "examine"]

/-- `contract_context` of the analysis layer (src/contract_draft.py line 370). -/
def analysisContractContext : List Text :=
  strs ["contract", "agreement", "lease", "this", "my"]

/-- `contract_mentions`, the fallback used when the relevance LLM call fails
(src/contract_draft.py line 383). -/
def contractMentions : List Text :=
  strs ["agreement", "contract", "lease", "landlord", "tenant", "party"]

/-!  ### The external LLM call

`get_gemini_response` either succeeds with a text or fails with an error
string.  We model the sequence of outcomes of the successive
`model.generate_content` calls of a request as a script consumed one entry
per call, and record each prompt sent.  -/

/-- Outcome of one `get_gemini_response` call: `.ok response` or `.error msg`. -/
abbrev GemResult := Except Text Text

/-- The state of the modelled LLM collaborator: the remaining script of
outcomes, and the prompts sent so far. -/
structure GemState where
  script : List GemResult
  sent : List Text

/-- Error text modelling an exhausted script (the model's behaviour is
whatever the script says; theorems always supply enough entries). -/
def scriptOutT : Text := "no response".toList

/-- One `get_gemini_response(prompt)` call: consume the next scripted outcome
and record the prompt. -/
def callGemini (prompt : Text) (g : GemState) : GemResult × GemState :=
  (g.script.headD (Except.error scriptOutT), ⟨g.script.tail, g.sent ++ [prompt]⟩)

/-- The `CONTRACT_RELEVANCE_CHECK_PROMPT` of src/contract_draft.py, as a
formatting function (template literal abridged; only the embedded `question`
matters for the claims). -/
def formatRelevance (question : Text) : Text :=
  "RELEVANCE CHECK / USER REQUEST: ".toList ++ question

/-- `"RELEVANT"`. -/
def relevantT : Text := "RELEVANT".toList

/-- Shallow embedding of `check_question_relevance(question)`
(src/contract_draft.py lines 305–397).  The layered keyword cascade is pure;
only the final fallback layer consults the LLM.  The outer `try/except` of the
source cannot fire in this pure model (none of the embedded operations
raises), so the `except` fallback (lines 386–397) is dead code here and is
not embedded. -/
def checkQuestionRelevance (question : Text) (g : GemState) : Bool × GemState :=
  let ql := trimT (lowerT question)
  if nonContractPhrases.any (fun p => containsSub ql p) &&
     !(contractIndicators.any (fun k => containsSub ql k)) then
    (false, g)
  else if contractKeywords.any (fun k => containsSub ql k) then
    (true, g)
  else if modificationKeywords.any (fun k => containsSub ql k) &&
          modContractContext.any (fun k => containsSub ql k) then
    (true, g)
  else if contractQuestionPatterns.any (fun k => containsSub ql k) then
    (true, g)
  else if analysisKeywords.any (fun k => containsSub ql k) &&
          analysisContractContext.any (fun k => containsSub ql k) then
    (true, g)
  else
    let r := callGemini (formatRelevance question) g
    match r.1 with
    | Except.ok resp => (containsSub (upperT (trimT resp)) relevantT, r.2)
    | Except.error _ => (contractMentions.any (fun k => containsSub ql k), r.2)

/-- C6: the relevance filter decides the four sample queries purely by its
keyword layers (the LLM script is untouched, so no LLM call is needed):
`"hello, how are you"` → false; `"draft a lease agreement for $1500/month"` →
true; `"what is the rent in my contract"` → true; `"tell me a joke"` → false. -/
theorem C6_relevance_filter_samples (g : GemState) :
    checkQuestionRelevance "hello, how are you".toList g = (false, g) ∧
    checkQuestionRelevance "draft a lease agreement for $1500/month".toList g = (true, g) ∧
    checkQuestionRelevance "what is the rent in my contract".toList g = (true, g) ∧
    checkQuestionRelevance "tell me a joke".toList g = (false, g) :=
  ⟨rfl, rfl, rfl, rfl⟩

/-!  ### Prompt templates of src/contract_draft.py

The claims depend only on which values are interpolated into the templates,
not on the surrounding literal prose, so the literals are abridged to short
markers; each formatting function interpolates exactly the values the source
template interpolates. -/

/-- `QUERY_INTENT_DETECTION_PROMPT.format(query=..., has_session=...)`.
Python interpolates the boolean as `True`/`False`. -/
def formatIntent (query : Text) (hasSession : Bool) : Text :=
  "INTENT DETECTION / USER QUERY: ".toList ++ query ++
  " / SESSION EXISTS: ".toList ++
  (if hasSession then "True".toList else "False".toList)

/-- `CONTRACT_TYPE_DETECTION_PROMPT.format(query=...)`. -/
def formatType (query : Text) : Text :=
  "CONTRACT TYPE DETECTION / REQUEST: ".toList ++ query

/-- `SIMPLE_CONTRACT_DRAFTING_PROMPT.format(query=...)`. -/
def formatDraft (query : Text) : Text :=
  "CONTRACT DRAFTING / CLIENT REQUEST: ".toList ++ query

/-- `CONTRACT_QA_PROMPT.format(contract_text=..., question=...)`. -/
def formatQA (contractText question : Text) : Text :=
  "CONTRACT QA / CONTRACT DOCUMENT: ".toList ++ contractText ++
  " / CLIENT QUESTION: ".toList ++ question

/-- `CONTRACT_MODIFICATION_PROMPT.format(current_contract=...,
modification_request=...)`. -/
def formatModify (currentContract modificationRequest : Text) : Text :=
  "CONTRACT MODIFICATION / CURRENT CONTRACT: ".toList ++ currentContract ++
  " / MODIFICATION REQUEST: ".toList ++ modificationRequest

/-- `CONTRACT_ANALYSIS_PROMPT.format(contract_text=...)`. -/
def formatAnalyze (contractText : Text) : Text :=
  "CONTRACT ANALYSIS / CONTRACT DOCUMENT: ".toList ++ contractText

/-!  ### The contract session store

`contract_sessions` is a process-global dict from session id to a session
dict holding a dict of contracts and the id of the active contract.  Session
and contract ids (uuids in the source) are modelled as naturals: a store
carries a counter `nextId` from which fresh session ids are minted, and a
contract's id is its position in the session's contract list. -/

/-- One contract of a session (`contract_sessions[sid]["contracts"][cid]`).
A modification record of the source is a dict `{request, timestamp}`; the
wall-clock timestamp is abstracted away, so a record is just the request
text. -/
structure Contract where
  contract_text : Text
  contract_type : Text
  source_query : Text
  modification_history : List Text
deriving DecidableEq

/-- One session: its contracts (contract id = list position) and the id of
the active contract, if any.  A session has a *single* active-contract
pointer, mirroring the single `active_contract_id` slot of the source. -/
structure Session where
  contracts : List Contract
  active_contract_id : Option Nat
deriving DecidableEq

/-- The global `contract_sessions` map plus the fresh-id counter. -/
structure Store where
  sessions : List (Nat × Session)
  nextId : Nat
deriving DecidableEq

/-- The empty store at process start (`contract_sessions = {}`). -/
def Store.empty : Store := ⟨[], 0⟩

/-- Dict lookup on an association list of sessions. -/
def lookupSessions : List (Nat × Session) → Nat → Option Session
  | [], _ => none
  | p :: l, sid => if p.1 = sid then some p.2 else lookupSessions l sid

/-- Look a session up by id (`sid in contract_sessions` /
`contract_sessions[sid]`). -/
def lookupSession (st : Store) (sid : Nat) : Option Session :=
  lookupSessions st.sessions sid

/-- Replace the session stored under `sid` (no-op if absent). -/
def setSession (st : Store) (sid : Nat) (s : Session) : Store :=
  ⟨st.sessions.map (fun p => if p.1 == sid then (sid, s) else p), st.nextId⟩

/-- Mint a fresh session id and store an empty session under it. -/
def mintSession (st : Store) : Nat × Store :=
  (st.nextId, ⟨st.sessions ++ [(st.nextId, ⟨[], none⟩)], st.nextId + 1⟩)

/-- A store is well formed when every stored session id is below the
fresh-id counter (true of every store reachable from `Store.empty`). -/
def StoreWF (st : Store) : Prop :=
  ∀ p ∈ st.sessions, p.1 < st.nextId

/-- Modelled from the spec: `create_session(requested_id)` — the helper
`create_or_get_session` called by src/contract_draft.py has no definition
under src/.  Per spec section 4.3 it reuses `requested_id` verbatim if it
already names a live session, otherwise mints a new unique identifier and
initializes an empty document map with a null active pointer. -/
def create_or_get_session (requested : Option Nat) (st : Store) : Nat × Store :=
  match requested with
  | some sid => if (lookupSession st sid).isSome then (sid, st) else mintSession st
  | none => mintSession st

/-- Modelled from the spec: `get_active(session_id)` — the helper
`get_active_contract` has no definition under src/.  Per spec section 4.3 it
returns the active document of the session, or nothing. -/
def get_active_contract (sid : Nat) (st : Store) : Option Contract :=
  match lookupSession st sid with
  | none => none
  | some s =>
    match s.active_contract_id with
    | none => none
    | some i => s.contracts[i]?

/-- Modelled from the spec: `add_document(session_id, content, type_label,
source_query)` — the helper `add_contract_to_session` has no definition under
src/.  Per spec section 4.3 it appends a new document, sets it as the active
document and returns its identifier, non-destructively to prior documents.
(The source only calls it for a live session; for an absent session the model
returns the store unchanged.) -/
def add_contract_to_session (sid : Nat) (text ctype query : Text) (st : Store) :
    Nat × Store :=
  match lookupSession st sid with
  | none => (0, st)
  | some s =>
    let cid := s.contracts.length
    (cid, setSession st sid ⟨s.contracts ++ [⟨text, ctype, query, []⟩], some cid⟩)

/-- Modelled from the spec: `list_summaries(session_id)` — the helper
`get_contracts_summary` has no definition under src/.  Per spec section 4.3
it returns an ordered sequence of document id and type label for client
display. -/
def get_contracts_summary (sid : Nat) (st : Store) : List (Nat × Text) :=
  match lookupSession st sid with
  | none => []
  | some s => s.contracts.enum.map (fun p => (p.1, p.2.contract_type))

/-- The in-place update of the active contract performed by the MODIFY
branch (src/contract_draft.py lines 773–777): replace its text wholesale and
append the request to its modification history. -/
def update_active_contract (sid : Nat) (newText req : Text) (st : Store) : Store :=
  match lookupSession st sid with
  | none => st
  | some s =>
    match s.active_contract_id with
    | none => st
    | some i =>
      match s.contracts[i]? with
      | none => st
      | some c =>
        setSession st sid
          ⟨s.contracts.set i
            ⟨newText, c.contract_type, c.source_query,
             c.modification_history ++ [req]⟩, s.active_contract_id⟩

/-- The modification history of the active contract (what the MODIFY branch
returns in `modification_history`). -/
def active_history (sid : Nat) (st : Store) : List Text :=
  match get_active_contract sid st with
  | none => []
  | some c => c.modification_history

/-!  ### The unified contract endpoint -/

/-- `UnifiedContractRequest`. -/
structure Request where
  query : Text
  session_id : Option Nat
deriving DecidableEq

/-- `UnifiedContractResponse` (all optional fields default to `None`). -/
structure Response where
  success : Bool
  query : Text
  session_id : Option Nat := none
  contract_text : Option Text := none
  contract_type : Option Text := none
  answer : Option Text := none
  is_relevant : Option Bool := none
  contract_analysis : Option Text := none
  key_clauses : Option (List Text) := none
  contract_details : Option (List (Text × Text)) := none
  modification_history : Option (List Text) := none
  detected_intent : Option Text := none
  error : Option Text := none
  is_new_session : Option Bool := none
  contracts_in_session : Option (List (Nat × Text)) := none
deriving DecidableEq

/-- `"DRAFT"`. -/
def draftT : Text := "DRAFT".toList

/-- `"QUESTION"`. -/
def questionT : Text := "QUESTION".toList

/-- `"MODIFY"`. -/
def modifyT : Text := "MODIFY".toList

/-- `"ANALYZE"`. -/
def analyzeT : Text := "ANALYZE".toList

/-- `"INVALID"`. -/
def invalidT : Text := "INVALID".toList

/-- `"Query is required"`. -/
def queryRequiredT : Text := "Query is required".toList

/-- The fixed rejection message for irrelevant queries
(src/contract_draft.py lines 629–633). -/
def rejectionT : Text :=
  ("I am a specialized contract drafting tool. I can only help with " ++
   "contract-related requests such as drafting contracts, analyzing " ++
   "agreements, or answering legal questions about contracts.").toList

/-- Error message when intent detection itself fails. -/
def understandT : Text :=
  "Error understanding your request. Please try again.".toList

/-- Guidance message for the INVALID intent. -/
def invalidMsgT : Text :=
  ("I couldn" ++ String.mk [apos] ++ "t understand your request. Please ask me to draft a " ++
   "contract, ask questions about a contract, modify a contract, or " ++
   "analyze a contract.").toList

/-- Guidance message when the classifier said DRAFT but no drafting keyword
is present (src/contract_draft.py line 677). -/
def draftGuidanceT : Text :=
  "Please ask me to draft or create a specific type of contract.".toList

/-- Error message when no active contract exists for an operation that
requires one. -/
def noActiveT : Text :=
  ("No active contract found in this session. Please draft a contract " ++
   "first.").toList

/-- Guidance message of the unknown-intent fallthrough. -/
def unknownIntentT : Text :=
  ("I couldn" ++ String.mk [apos] ++ "t understand what you want to do. Please ask me to " ++
   "draft, modify, analyze, or ask questions about contracts.").toList

/-- `drafting_keywords` of the DRAFT re-validation check
(src/contract_draft.py line 670). -/
def draftingKeywords : List Text :=
  strs ["draft", "create", "make", "write", "generate", "contract", "agreement"]

/-- `"Error generating contract: "`. -/
def draftErrT : Text := "Error generating contract: ".toList

/-- `"Error processing question: "`. -/
def questionErrT : Text := "Error processing question: ".toList

/-- `"Error modifying contract: "`. -/
def modifyErrT : Text := "Error modifying contract: ".toList

/-- `"Error analyzing contract: "`. -/
def analyzeErrT : Text := "Error analyzing contract: ".toList

/-- `"Unexpected error: "` of the outermost exception boundary. -/
def unexpectedErrT : Text := "Unexpected error: ".toList

/-- `parse_contract_analysis_response` (src/contract_draft.py lines 399–439):
best-effort regex extraction of key clauses and contract details from the
analysis text, degrading to empty extractions when the patterns do not
match.  The regex matching itself is abstracted away (no claim depends on
it): the model returns the full text as the analysis together with the
no-match extractions, which is exactly the source's behaviour on texts where
the patterns are absent. -/
def parse_contract_analysis_response (t : Text) :
    Text × List Text × List (Text × Text) :=
  (t, [], [])

/-- The DRAFT branch of `unified_contract_endpoint`
(src/contract_draft.py lines 668–718). -/
def handleDraft (query : Text) (sid : Nat) (isNew : Bool) (st : Store)
    (g : GemState) : Response × Store × GemState :=
  if draftingKeywords.any (fun k => containsSub (lowerT query) k) then
    let tr := callGemini (formatType query) g
    let ctype := match tr.1 with
      | Except.error _ => "Contract".toList
      | Except.ok t => trimT t
    let dr := callGemini (formatDraft query) tr.2
    match dr.1 with
    | Except.ok d =>
      let ad := add_contract_to_session sid d ctype query st
      ({success := true, query := query, session_id := some sid,
        contract_text := some d, contract_type := some ctype,
        detected_intent := some draftT, is_new_session := some isNew,
        contracts_in_session := some (get_contracts_summary sid ad.2)},
       ad.2, dr.2)
    | Except.error e =>
      ({success := false, query := query, session_id := some sid,
        detected_intent := some draftT, error := some (draftErrT ++ e)},
       st, dr.2)
  else
    ({success := false, query := query, session_id := some sid,
      detected_intent := some draftT, error := some draftGuidanceT}, st, g)

/-- The QUESTION branch of `unified_contract_endpoint`
(src/contract_draft.py lines 731–759).  Note the `[:20000]` truncation. -/
def handleQuestion (query : Text) (sid : Nat) (c : Contract) (st : Store)
    (g : GemState) : Response × Store × GemState :=
  let trimmed := c.contract_text.take 20000
  let r := callGemini (formatQA trimmed query) g
  match r.1 with
  | Except.ok ans =>
    ({success := true, query := query, session_id := some sid,
      answer := some ans, is_relevant := some true,
      detected_intent := some questionT,
      contracts_in_session := some (get_contracts_summary sid st)}, st, r.2)
  | Except.error e =>
    ({success := false, query := query, session_id := some sid,
      detected_intent := some questionT,
      error := some (questionErrT ++ e)}, st, r.2)

/-- The MODIFY branch of `unified_contract_endpoint`
(src/contract_draft.py lines 762–796).  Note that the *full* current
contract text is interpolated into the prompt, with no truncation. -/
def handleModify (query : Text) (sid : Nat) (c : Contract) (st : Store)
    (g : GemState) : Response × Store × GemState :=
  let current := c.contract_text
  let r := callGemini (formatModify current query) g
  match r.1 with
  | Except.ok newText =>
    let st2 := update_active_contract sid newText query st
    ({success := true, query := query, session_id := some sid,
      contract_text := some newText,
      modification_history := some (active_history sid st2),
      detected_intent := some modifyT,
      contracts_in_session := some (get_contracts_summary sid st2)}, st2, r.2)
  | Except.error e =>
    ({success := false, query := query, session_id := some sid,
      detected_intent := some modifyT,
      error := some (modifyErrT ++ e)}, st, r.2)

/-- The ANALYZE branch of `unified_contract_endpoint`
(src/contract_draft.py lines 799–826).  Note the `[:20000]` truncation. -/
def handleAnalyze (query : Text) (sid : Nat) (c : Contract) (st : Store)
    (g : GemState) : Response × Store × GemState :=
  let trimmed := c.contract_text.take 20000
  let r := callGemini (formatAnalyze trimmed) g
  match r.1 with
  | Except.ok resp =>
    let parsed := parse_contract_analysis_response resp
    ({success := true, query := query, session_id := some sid,
      contract_analysis := some parsed.1, key_clauses := some parsed.2.1,
      contract_details := some parsed.2.2,
      detected_intent := some analyzeT,
      contracts_in_session := some (get_contracts_summary sid st)}, st, r.2)
  | Except.error e =>
    ({success := false, query := query, session_id := some sid,
      detected_intent := some analyzeT,
      error := some (analyzeErrT ++ e)}, st, r.2)

/-- The body of the `try:` block of `unified_contract_endpoint`
(src/contract_draft.py lines 618–836): validation, relevance filter, session
resolution, LLM intent detection, then dispatch. -/
def unified_contract_body (req : Request) (st : Store) (g : GemState) :
    Response × Store × GemState :=
  if req.query = [] then
    ({success := false, query := [], error := some queryRequiredT}, st, g)
  else
    let pr := checkQuestionRelevance req.query g
    if pr.1 = false then
      ({success := false, query := req.query, error := some rejectionT},
       st, pr.2)
    else
      let cs := create_or_get_session req.session_id st
      let sid := cs.1
      let st1 := cs.2
      let isNew : Bool := match req.session_id with
        | none => true
        | some rid => !(lookupSession st1 rid).isSome
      let hasActive := (get_active_contract sid st1).isSome
      let ir := callGemini (formatIntent req.query hasActive) pr.2
      match ir.1 with
      | Except.error _ =>
        ({success := false, query := req.query, session_id := some sid,
          error := some understandT}, st1, ir.2)
      | Except.ok itext =>
        let detected := upperT (trimT itext)
        if detected = invalidT then
          ({success := false, query := req.query, session_id := some sid,
            detected_intent := some invalidT, error := some invalidMsgT},
           st1, ir.2)
        else if detected = draftT then
          handleDraft req.query sid isNew st1 ir.2
        else
          match get_active_contract sid st1 with
          | none =>
            ({success := false, query := req.query, session_id := some sid,
              detected_intent := some detected, error := some noActiveT},
             st1, ir.2)
          | some c =>
            if detected = questionT then handleQuestion req.query sid c st1 ir.2
            else if detected = modifyT then handleModify req.query sid c st1 ir.2
            else if detected = analyzeT then handleAnalyze req.query sid c st1 ir.2
            else
              ({success := false, query := req.query, session_id := some sid,
                detected_intent := some detected,
                error := some unknownIntentT}, st1, ir.2)

/-- `unified_contract_endpoint` with its outermost `try/except` boundary
(src/contract_draft.py lines 618–845).  The possibility of an unexpected
internal exception inside the body is modelled by the injected fault `exn`:
`none` runs the body (which is total in this pure embedding), `some e`
models the body raising an exception with message `e`, which the `except`
block (lines 838–845) turns into a normal error response — it re-resolves
the session exactly as line 839 does. -/
def unified_contract_endpoint (exn : Option Text) (req : Request) (st : Store)
    (g : GemState) : Response × Store × GemState :=
  match exn with
  | none => unified_contract_body req st g
  | some e =>
    ({success := false, query := req.query,
      session_id := some (create_or_get_session req.session_id st).1,
      error := some (unexpectedErrT ++ e)},
     (create_or_get_session req.session_id st).2, g)

/-- C1: any unexpected internal exception raised while handling a
`POST /api/contract` request is caught at the outermost boundary and turned
into a normal response with `success: false` and the generic
`"Unexpected error: ..."` message; no raw fault propagates (the endpoint
always yields a `Response`, for every request, store, script and fault). -/
theorem C1_unexpected_error_caught (e : Text) (req : Request) (st : Store)
    (g : GemState) :
    (unified_contract_endpoint (some e) req st g).1.success = false ∧
    (unified_contract_endpoint (some e) req st g).1.error =
      some (unexpectedErrT ++ e) ∧
    (unified_contract_endpoint (some e) req st g).1.query = req.query :=
  ⟨rfl, rfl, rfl⟩

/-!  ### src/app.py — the legal-case analysis service

`case_sessions` maps a session id to the uploaded case text and filename
(`upload_time` is abstracted away).  `HTTPException`s raised by the handlers
propagate to the framework, modelled by an `Except` result. -/

/-- One case session (`case_sessions[sid]`). -/
structure CaseSession where
  case_text : Text
  filename : Text
deriving DecidableEq

/-- The global `case_sessions` map plus the fresh-id counter. -/
structure CaseStore where
  sessions : List (Nat × CaseSession)
  nextId : Nat
deriving DecidableEq

/-- The empty case store. -/
def CaseStore.empty : CaseStore := ⟨[], 0⟩

/-- Look a case session up by id. -/
def lookupCase (st : CaseStore) (sid : Nat) : Option CaseSession :=
  (st.sessions.find? (fun p => p.1 == sid)).map (fun p => p.2)

/-- A raised `HTTPException`. -/
structure HTTPExc where
  status_code : Nat
  detail : Text
deriving DecidableEq

/-- `CaseQARequest`. -/
structure CaseQARequest where
  session_id : Nat
  question : Text
deriving DecidableEq

/-- `CaseQAResponse`. -/
structure CaseQAResponse where
  success : Bool
  question : Text
  answer : Option Text := none
  error : Option Text := none
deriving DecidableEq

/-- `CaseUploadResponse`. -/
structure CaseUploadResponse where
  success : Bool
  session_id : Nat
  summary : Option Text := none
  key_terms : Option (List Text) := none
  case_details : Option (List (Text × Text)) := none
  file_processed : Option Text := none
  error : Option Text := none
deriving DecidableEq

/-- The 404 detail of `/api/ask-question` for an unknown session
(src/app.py lines 330–333). -/
def sessionNotFoundT : Text :=
  ("Session not found. Please upload a case file first using " ++
   "/api/upload-case").toList

/-- `CASE_QA_PROMPT.format(case_text=..., question=...)` (template literal
abridged; only the embedded values matter for the claims). -/
def formatCaseQA (caseText question : Text) : Text :=
  "CASE QA / CASE DOCUMENT: ".toList ++ caseText ++
  " / CLIENT QUESTION: ".toList ++ question

/-- `CASE_SUMMARY_PROMPT.format(case_text=...)`. -/
def formatCaseSummary (caseText : Text) : Text :=
  "CASE SUMMARY / CASE DOCUMENT: ".toList ++ caseText

/-- `parse_case_summary_response` (src/app.py lines 189–229): best-effort
regex extraction, degrading to empty extractions when the patterns do not
match.  As with the contract analysis parser, the regex matching is
abstracted away (no claim depends on it): the model returns the full text as
the summary with the no-match extractions. -/
def parse_case_summary_response (t : Text) :
    Text × List Text × List (Text × Text) :=
  (t, [], [])

/-- Shallow embedding of `ask_question_about_case`
(src/app.py lines 314–361): validate the session, truncate the stored case
text to 20000 characters, call the LLM, and either answer or raise. -/
def ask_question_about_case (req : CaseQARequest) (st : CaseStore)
    (g : GemState) : Except HTTPExc CaseQAResponse × CaseStore × GemState :=
  match lookupCase st req.session_id with
  | none => (Except.error ⟨404, sessionNotFoundT⟩, st, g)
  | some cd =>
    let trimmed := cd.case_text.take 20000
    let r := callGemini (formatCaseQA trimmed req.question) g
    match r.1 with
    | Except.ok ans =>
      (Except.ok {success := true, question := req.question,
                  answer := some ans}, st, r.2)
    | Except.error e => (Except.error ⟨500, e⟩, st, r.2)

/-- `filename.split('.')[-1]`: the segment after the last dot (the whole
text when no dot occurs). -/
def lastDotSegment (t : Text) : Text :=
  ((takeWhileB (fun c => !(c == '.')) t.reverse)).reverse

/-- 400 detail for a missing filename. -/
def noFilenameT : Text := "No filename provided".toList

/-- 400 detail for an unsupported extension. -/
def onlyPdfTxtT : Text := "Only PDF and TXT files are supported".toList

/-- Shallow embedding of `upload_and_analyze_case`
(src/app.py lines 233–312), starting from the already-extracted case text
(file saving and text extraction are external collaborators per the spec):
validate the filename, mint a session storing the case text, truncate the
text to 20000 characters for the summary prompt, and on LLM failure delete
the freshly created session again and raise 500. -/
def upload_and_analyze_case (filename caseText : Text) (st : CaseStore)
    (g : GemState) : Except HTTPExc CaseUploadResponse × CaseStore × GemState :=
  if filename = [] then (Except.error ⟨400, noFilenameT⟩, st, g)
  else
    let ext := lowerT (lastDotSegment filename)
    if !(ext == "pdf".toList || ext == "txt".toList) then
      (Except.error ⟨400, onlyPdfTxtT⟩, st, g)
    else
      let sid := st.nextId
      let st1 : CaseStore :=
        ⟨st.sessions ++ [(sid, ⟨caseText, filename⟩)], st.nextId + 1⟩
      let trimmed := caseText.take 20000
      let r := callGemini (formatCaseSummary trimmed) g
      match r.1 with
      | Except.ok resp =>
        let parsed := parse_case_summary_response resp
        (Except.ok {success := true, session_id := sid,
                    summary := some parsed.1, key_terms := some parsed.2.1,
                    case_details := some parsed.2.2,
                    file_processed := some filename}, st1, r.2)
      | Except.error e => (Except.error ⟨500, e⟩, st, r.2)

/-- C10: a `POST /api/ask-question` whose `session_id` is not in the session
store fails with a 404 "Session not found" error before any LLM call (the
script and prompt record are untouched), and the session store is unchanged. -/
theorem C10_ask_question_unknown_session (req : CaseQARequest)
    (st : CaseStore) (g : GemState)
    (h : lookupCase st req.session_id = none) :
    ask_question_about_case req st g =
      (Except.error ⟨404, sessionNotFoundT⟩, st, g) := by
  simp [ask_question_about_case, h]

/-- Witness for C10: concrete unknown session against the empty store. -/
theorem C10_ask_question_unknown_session_witness :
    lookupCase CaseStore.empty 7 = none ∧
    ask_question_about_case ⟨7, "what happened".toList⟩ CaseStore.empty
        ⟨[], []⟩ =
      (Except.error ⟨404, sessionNotFoundT⟩, CaseStore.empty, ⟨[], []⟩) :=
  ⟨rfl, C10_ask_question_unknown_session ⟨7, "what happened".toList⟩
    CaseStore.empty ⟨[], []⟩ rfl⟩

/-!  ### Store lemmas -/

theorem lookupSessions_set_self (sid : Nat) (s' : Session) :
    ∀ (l : List (Nat × Session)) {s : Session},
    lookupSessions l sid = some s →
    lookupSessions (l.map (fun p => if p.1 == sid then (sid, s') else p)) sid =
      some s'
  | [], s, h => by simp [lookupSessions] at h
  | p :: l, s, h => by
    by_cases hp : p.1 = sid
    · simp [lookupSessions, hp]
    · rw [lookupSessions, if_neg hp] at h
      simpa [lookupSessions, hp] using lookupSessions_set_self sid s' l h

theorem lookupSession_setSession_self {st : Store} {sid : Nat} {s : Session}
    (s' : Session) (h : lookupSession st sid = some s) :
    lookupSession (setSession st sid s') sid = some s' :=
  lookupSessions_set_self sid s' st.sessions (s := s) h

theorem lookupSessions_set_other (sid sid' : Nat) (s' : Session)
    (h : sid' ≠ sid) :
    ∀ (l : List (Nat × Session)),
    lookupSessions (l.map (fun p => if p.1 == sid then (sid, s') else p)) sid' =
      lookupSessions l sid'
  | [] => by simp [lookupSessions]
  | p :: l => by
    by_cases hp : p.1 = sid
    · simp only [List.map_cons, if_pos (by simp [hp] : (p.1 == sid) = true)]
      rw [lookupSessions, lookupSessions, if_neg (Ne.symm h),
        if_neg (by rw [hp]; exact Ne.symm h)]
      exact lookupSessions_set_other sid sid' s' h l
    · simp only [List.map_cons, if_neg (by simp [hp] : ¬(p.1 == sid) = true)]
      rw [lookupSessions, lookupSessions]
      by_cases hq : p.1 = sid'
      · rw [if_pos hq, if_pos hq]
      · rw [if_neg hq, if_neg hq]
        exact lookupSessions_set_other sid sid' s' h l

theorem lookupSession_setSession_other {st : Store} {sid sid' : Nat}
    (s' : Session) (h : sid' ≠ sid) :
    lookupSession (setSession st sid s') sid' = lookupSession st sid' :=
  lookupSessions_set_other sid sid' s' h st.sessions

theorem lookupSessions_append_some {x : Nat} {s : Session} :
    ∀ {l₁ : List (Nat × Session)} (l₂ : List (Nat × Session)),
    lookupSessions l₁ x = some s → lookupSessions (l₁ ++ l₂) x = some s := by
  intro l₁
  induction l₁ with
  | nil => intro l₂ h; simp [lookupSessions] at h
  | cons p l ih =>
    intro l₂ h
    rw [lookupSessions] at h
    by_cases hp : p.1 = x
    · rw [if_pos hp] at h
      simp [lookupSessions, hp, h]
    · rw [if_neg hp] at h
      simpa [lookupSessions, hp] using ih l₂ h

theorem lookupSession_mint_preserve {st : Store} {x : Nat} {s : Session}
    (h : lookupSession st x = some s) :
    lookupSession (mintSession st).2 x = some s :=
  lookupSessions_append_some _ h

theorem lookupSessions_none_append {x : Nat} :
    ∀ {l₁ : List (Nat × Session)} (l₂ : List (Nat × Session)),
    lookupSessions l₁ x = none →
    lookupSessions (l₁ ++ l₂) x = lookupSessions l₂ x := by
  intro l₁
  induction l₁ with
  | nil => intro l₂ _; rfl
  | cons p l ih =>
    intro l₂ h
    rw [lookupSessions] at h
    by_cases hp : p.1 = x
    · rw [if_pos hp] at h; exact absurd h (by simp)
    · rw [if_neg hp] at h
      simpa [lookupSessions, hp] using ih l₂ h

theorem lookupSessions_wf_none {l : List (Nat × Session)} {n : Nat}
    (h : ∀ p ∈ l, p.1 < n) : lookupSessions l n = none := by
  induction l with
  | nil => rfl
  | cons p l ih =>
    rw [lookupSessions, if_neg (by have := h p (by simp); omega)]
    exact ih (fun q hq => h q (by simp [hq]))

theorem lookupSession_mint_new {st : Store} (hWF : StoreWF st) :
    lookupSession (mintSession st).2 st.nextId = some ⟨[], none⟩ := by
  rw [lookupSession, mintSession,
    lookupSessions_none_append _ (lookupSessions_wf_none hWF)]
  simp [lookupSessions]

theorem lookupSession_mint_cases {st : Store} {x : Nat} {s : Session}
    (h : lookupSession (mintSession st).2 x = some s) :
    lookupSession st x = some s ∨ s = ⟨[], none⟩ := by
  cases hf : lookupSession st x with
  | some s₀ =>
    left
    rw [lookupSession_mint_preserve hf] at h
    exact h
  | none =>
    right
    rw [lookupSession, mintSession, lookupSessions_none_append _ hf] at h
    rw [lookupSessions] at h
    by_cases hx : st.nextId = x
    · rw [if_pos hx] at h
      simpa using h.symm
    · rw [if_neg hx] at h
      simp [lookupSessions] at h

theorem create_or_get_session_cases (r : Option Nat) (st : Store) :
    ((create_or_get_session r st).2 = st ∧
      lookupSession st (create_or_get_session r st).1 =
        lookupSession (create_or_get_session r st).2 (create_or_get_session r st).1) ∨
    ((create_or_get_session r st).1 = st.nextId ∧
      (create_or_get_session r st).2 = (mintSession st).2) := by
  match r with
  | none => right; exact ⟨rfl, rfl⟩
  | some sid =>
    by_cases h : (lookupSession st sid).isSome
    · left; simp [create_or_get_session, h]
    · right; simp [create_or_get_session, h, mintSession]

theorem create_or_get_session_live {st : Store} {sid : Nat} {s : Session}
    (h : lookupSession st sid = some s) :
    create_or_get_session (some sid) st = (sid, st) := by
  simp [create_or_get_session, h]

/-- If the freshly resolved session has an active contract, the session was
live already and the store is untouched by session resolution. -/
theorem create_active_imp_unchanged {st : Store} {r : Option Nat} {c : Contract}
    (hWF : StoreWF st)
    (ha : get_active_contract (create_or_get_session r st).1
      (create_or_get_session r st).2 = some c) :
    (create_or_get_session r st).2 = st := by
  rcases create_or_get_session_cases r st with ⟨h1, _⟩ | ⟨h1, h2⟩
  · exact h1
  · exfalso
    rw [h2, h1] at ha
    rw [get_active_contract, lookupSession_mint_new hWF] at ha
    simp at ha

theorem create_or_get_session_preserve {st : Store} {r : Option Nat}
    {x : Nat} {s : Session} (h : lookupSession st x = some s) :
    lookupSession (create_or_get_session r st).2 x = some s := by
  rcases create_or_get_session_cases r st with ⟨h1, _⟩ | ⟨_, h2⟩
  · rw [h1]; exact h
  · rw [h2]; exact lookupSession_mint_preserve h

theorem create_or_get_session_new_empty {st : Store} {r : Option Nat}
    {x : Nat} {s : Session}
    (h : lookupSession (create_or_get_session r st).2 x = some s) :
    lookupSession st x = some s ∨ s = ⟨[], none⟩ := by
  rcases create_or_get_session_cases r st with ⟨h1, _⟩ | ⟨_, h2⟩
  · rw [h1] at h; exact Or.inl h
  · rw [h2] at h; exact lookupSession_mint_cases h

theorem add_contract_to_session_eq {st : Store} {sid : Nat} {s : Session}
    (d ctype query : Text) (h : lookupSession st sid = some s) :
    add_contract_to_session sid d ctype query st =
      (s.contracts.length,
       setSession st sid
         ⟨s.contracts ++ [⟨d, ctype, query, []⟩], some s.contracts.length⟩) := by
  simp [add_contract_to_session, h]

/-!  ### Auxiliary inequalities between intent labels -/

theorem draftT_ne_invalidT : draftT ≠ invalidT := by decide

theorem questionT_ne_invalidT : questionT ≠ invalidT := by decide

theorem questionT_ne_draftT : questionT ≠ draftT := by decide

theorem modifyT_ne_invalidT : modifyT ≠ invalidT := by decide

theorem modifyT_ne_draftT : modifyT ≠ draftT := by decide

theorem modifyT_ne_questionT : modifyT ≠ questionT := by decide

theorem analyzeT_ne_invalidT : analyzeT ≠ invalidT := by decide

theorem analyzeT_ne_draftT : analyzeT ≠ draftT := by decide

theorem analyzeT_ne_questionT : analyzeT ≠ questionT := by decide

theorem analyzeT_ne_modifyT : analyzeT ≠ modifyT := by decide

/-!  ### C7 — irrelevant queries -/

/-- C7 counterexample: for the empty query the endpoint answers with the
validation message `"Query is required"`, not the fixed rejection message,
even under a script for which the relevance filter returns `false` for that
query — and the endpoint does not even consult the filter (the script is
left untouched, while the filter itself would have consumed one entry). -/
theorem C7_counterexample :
    (checkQuestionRelevance [] ⟨[Except.error "x".toList], []⟩).1 = false ∧
    (unified_contract_body ⟨[], none⟩ Store.empty
        ⟨[Except.error "x".toList], []⟩).1.success = false ∧
    (unified_contract_body ⟨[], none⟩ Store.empty
        ⟨[Except.error "x".toList], []⟩).1.error = some queryRequiredT ∧
    (unified_contract_body ⟨[], none⟩ Store.empty
        ⟨[Except.error "x".toList], []⟩).2.2 = ⟨[Except.error "x".toList], []⟩ ∧
    queryRequiredT ≠ rejectionT :=
  ⟨rfl, rfl, rfl, rfl, by decide⟩

/-- C7 as amended: for every *nonempty* query on which the relevance filter
returns `false`, the endpoint responds with `success: false` and the fixed
rejection message, and nothing further runs: the store is returned unchanged
(no session resolution, no document operation) and the LLM state is exactly
the filter's own (no intent classification and no additional LLM call). -/
theorem C7_amended_irrelevant_rejected (req : Request) (st : Store)
    (g g' : GemState) (hq : req.query ≠ [])
    (hrel : checkQuestionRelevance req.query g = (false, g')) :
    unified_contract_body req st g =
      ({success := false, query := req.query, error := some rejectionT},
       st, g') := by
  unfold unified_contract_body
  rw [if_neg hq]
  simp only [hrel]
  simp

/-- Witness for C7's amended theorem: the concrete irrelevant query
`"tell me a joke"` (decided by the filter with no LLM call). -/
theorem C7_amended_witness :
    ("tell me a joke".toList ≠ ([] : Text)) ∧
    checkQuestionRelevance "tell me a joke".toList ⟨[], []⟩ = (false, ⟨[], []⟩) ∧
    unified_contract_body ⟨"tell me a joke".toList, none⟩ Store.empty ⟨[], []⟩ =
      ({success := false, query := "tell me a joke".toList,
        error := some rejectionT}, Store.empty, ⟨[], []⟩) :=
  ⟨by decide, rfl,
   C7_amended_irrelevant_rejected ⟨"tell me a joke".toList, none⟩ Store.empty
     ⟨[], []⟩ ⟨[], []⟩ (by decide) rfl⟩

/-!  ### C8 — DRAFT keyword re-validation -/

/-- C8: whenever the classifier labels a (relevant, nonempty) query DRAFT but
no drafting keyword occurs in the raw query, the endpoint fails with the
user-facing guidance error, the store stays as resolved by session lookup
(no contract generated or added), and exactly one LLM call (the intent
classification) was made after the filter — the drafting LLM call is never
reached. -/
theorem C8_draft_requires_keyword (req : Request) (st : Store)
    (g g₀ : GemState) (itext : Text) (sc' : List GemResult)
    (hq : req.query ≠ [])
    (hrel : checkQuestionRelevance req.query g = (true, g₀))
    (hscript : g₀.script = Except.ok itext :: sc')
    (hint : upperT (trimT itext) = draftT)
    (hkw : draftingKeywords.any (fun k => containsSub (lowerT req.query) k) = false) :
    unified_contract_body req st g =
      ({success := false, query := req.query,
        session_id := some (create_or_get_session req.session_id st).1,
        detected_intent := some draftT, error := some draftGuidanceT},
       (create_or_get_session req.session_id st).2,
       ⟨sc',
        g₀.sent ++ [formatIntent req.query
          ((get_active_contract (create_or_get_session req.session_id st).1
            (create_or_get_session req.session_id st).2).isSome)]⟩) := by
  unfold unified_contract_body
  rw [if_neg hq]
  simp only [hrel, callGemini, hscript, List.headD, List.tail, hint]
  rw [if_neg (by simp)]
  rw [if_neg draftT_ne_invalidT, if_pos trivial]
  unfold handleDraft
  rw [if_neg (by simp [hkw])]

/-- Witness for C8: the concrete relevant query `"what is the rent"`
classified DRAFT by the scripted LLM; it contains no drafting keyword. -/
theorem C8_draft_requires_keyword_witness :
    ("what is the rent".toList ≠ ([] : Text)) ∧
    checkQuestionRelevance "what is the rent".toList
        ⟨[Except.ok "DRAFT".toList], []⟩ =
      (true, ⟨[Except.ok "DRAFT".toList], []⟩) ∧
    upperT (trimT "DRAFT".toList) = draftT ∧
    unified_contract_body ⟨"what is the rent".toList, none⟩ Store.empty
        ⟨[Except.ok "DRAFT".toList], []⟩ =
      ({success := false, query := "what is the rent".toList,
        session_id := some 0, detected_intent := some draftT,
        error := some draftGuidanceT},
       ⟨[(0, ⟨[], none⟩)], 1⟩,
       ⟨[], [formatIntent "what is the rent".toList false]⟩) :=
  ⟨by decide, rfl, rfl,
   C8_draft_requires_keyword ⟨"what is the rent".toList, none⟩ Store.empty
     ⟨[Except.ok "DRAFT".toList], []⟩ ⟨[Except.ok "DRAFT".toList], []⟩
     "DRAFT".toList [] (by decide) rfl rfl rfl rfl⟩

/-!  ### Reaching the intent branches -/

/-- Under a relevant nonempty query whose scripted classification is
QUESTION and with an active contract present, the body reduces to the
QUESTION handler. -/
theorem body_reaches_question (req : Request) (st : Store) (g g₀ : GemState)
    (itext : Text) (sc' : List GemResult) (c : Contract)
    (hq : req.query ≠ [])
    (hrel : checkQuestionRelevance req.query g = (true, g₀))
    (hscript : g₀.script = Except.ok itext :: sc')
    (hint : upperT (trimT itext) = questionT)
    (hact : get_active_contract (create_or_get_session req.session_id st).1
      (create_or_get_session req.session_id st).2 = some c) :
    unified_contract_body req st g =
      handleQuestion req.query (create_or_get_session req.session_id st).1 c
        (create_or_get_session req.session_id st).2
        ⟨sc', g₀.sent ++ [formatIntent req.query true]⟩ := by
  unfold unified_contract_body
  rw [if_neg hq]
  simp only [hrel, callGemini, hscript, List.headD, List.tail, hint, hact,
    Option.isSome_some]
  rw [if_neg (by simp)]
  rw [if_neg questionT_ne_invalidT, if_neg questionT_ne_draftT,
    if_pos trivial]

/-- Under a relevant nonempty query whose scripted classification is MODIFY
and with an active contract present, the body reduces to the MODIFY
handler. -/
theorem body_reaches_modify (req : Request) (st : Store) (g g₀ : GemState)
    (itext : Text) (sc' : List GemResult) (c : Contract)
    (hq : req.query ≠ [])
    (hrel : checkQuestionRelevance req.query g = (true, g₀))
    (hscript : g₀.script = Except.ok itext :: sc')
    (hint : upperT (trimT itext) = modifyT)
    (hact : get_active_contract (create_or_get_session req.session_id st).1
      (create_or_get_session req.session_id st).2 = some c) :
    unified_contract_body req st g =
      handleModify req.query (create_or_get_session req.session_id st).1 c
        (create_or_get_session req.session_id st).2
        ⟨sc', g₀.sent ++ [formatIntent req.query true]⟩ := by
  unfold unified_contract_body
  rw [if_neg hq]
  simp only [hrel, callGemini, hscript, List.headD, List.tail, hint, hact,
    Option.isSome_some]
  rw [if_neg (by simp)]
  rw [if_neg modifyT_ne_invalidT, if_neg modifyT_ne_draftT,
    if_neg modifyT_ne_questionT, if_pos trivial]

/-- Under a relevant nonempty query whose scripted classification is ANALYZE
and with an active contract present, the body reduces to the ANALYZE
handler. -/
theorem body_reaches_analyze (req : Request) (st : Store) (g g₀ : GemState)
    (itext : Text) (sc' : List GemResult) (c : Contract)
    (hq : req.query ≠ [])
    (hrel : checkQuestionRelevance req.query g = (true, g₀))
    (hscript : g₀.script = Except.ok itext :: sc')
    (hint : upperT (trimT itext) = analyzeT)
    (hact : get_active_contract (create_or_get_session req.session_id st).1
      (create_or_get_session req.session_id st).2 = some c) :
    unified_contract_body req st g =
      handleAnalyze req.query (create_or_get_session req.session_id st).1 c
        (create_or_get_session req.session_id st).2
        ⟨sc', g₀.sent ++ [formatIntent req.query true]⟩ := by
  unfold unified_contract_body
  rw [if_neg hq]
  simp only [hrel, callGemini, hscript, List.headD, List.tail, hint, hact,
    Option.isSome_some]
  rw [if_neg (by simp)]
  rw [if_neg analyzeT_ne_invalidT, if_neg analyzeT_ne_draftT,
    if_neg analyzeT_ne_questionT, if_neg analyzeT_ne_modifyT, if_pos trivial]

/-!  ### C9 — QUESTION operations never mutate the store -/

/-- C9: every QUESTION operation — in the unified endpoint and in the app.py
Q&A endpoint — leaves the session store completely unchanged, whether the
LLM call succeeds or fails, and a successful response carries the LLM's
answer verbatim. -/
theorem C9_question_frame :
    (∀ (req : Request) (st : Store) (g g₀ : GemState) (itext : Text)
        (sc' : List GemResult) (c : Contract),
      StoreWF st → req.query ≠ [] →
      checkQuestionRelevance req.query g = (true, g₀) →
      g₀.script = Except.ok itext :: sc' →
      upperT (trimT itext) = questionT →
      get_active_contract (create_or_get_session req.session_id st).1
        (create_or_get_session req.session_id st).2 = some c →
      ((unified_contract_body req st g).2.1 = st ∧
       (∀ ans rest, sc' = Except.ok ans :: rest →
         (unified_contract_body req st g).1.success = true ∧
         (unified_contract_body req st g).1.answer = some ans) ∧
       (∀ e rest, sc' = Except.error e :: rest →
         (unified_contract_body req st g).1.success = false ∧
         (unified_contract_body req st g).1.answer = none))) ∧
    (∀ (creq : CaseQARequest) (cst : CaseStore) (cg : GemState)
        (cd : CaseSession),
      lookupCase cst creq.session_id = some cd →
      ((ask_question_about_case creq cst cg).2.1 = cst ∧
       (∀ ans rest, cg.script = Except.ok ans :: rest →
         (ask_question_about_case creq cst cg).1 =
           Except.ok {success := true, question := creq.question,
                      answer := some ans}))) := by
  constructor
  · intro req st g g₀ itext sc' c hWF hq hrel hscript hint hact
    have hbody := body_reaches_question req st g g₀ itext sc' c hq hrel
      hscript hint hact
    have hst1 : (create_or_get_session req.session_id st).2 = st :=
      create_active_imp_unchanged hWF hact
    rw [hbody, hst1]
    refine ⟨?_, ?_, ?_⟩
    · unfold handleQuestion
      cases hcg : (callGemini
          (formatQA (c.contract_text.take 20000) req.query)
          ⟨sc', g₀.sent ++ [formatIntent req.query true]⟩).1 with
      | ok a => simp [hcg]
      | error e => simp [hcg]
    · intro ans rest hsc
      subst hsc
      unfold handleQuestion
      simp [callGemini]
    · intro e rest hsc
      subst hsc
      unfold handleQuestion
      simp [callGemini]
  · intro creq cst cg cd hlk
    unfold ask_question_about_case
    rw [hlk]
    refine ⟨?_, ?_⟩
    · cases hcg : (callGemini
          (formatCaseQA (cd.case_text.take 20000) creq.question) cg).1 with
      | ok a => simp [hcg]
      | error e => simp [hcg]
    · intro ans rest hsc
      simp [callGemini, hsc]

/-- Witness for C9: a concrete one-contract session questioned with a
scripted successful answer (both endpoints). -/
theorem C9_question_frame_witness :
    (StoreWF ⟨[(0, ⟨[⟨"TEXT".toList, "Lease".toList, "q".toList, []⟩],
        some 0⟩)], 1⟩ ∧
     (unified_contract_body ⟨"what is the rent in my contract".toList, some 0⟩
        ⟨[(0, ⟨[⟨"TEXT".toList, "Lease".toList, "q".toList, []⟩], some 0⟩)], 1⟩
        ⟨[Except.ok "QUESTION".toList, Except.ok "It is 1500.".toList],
         []⟩).2.1 =
       ⟨[(0, ⟨[⟨"TEXT".toList, "Lease".toList, "q".toList, []⟩], some 0⟩)], 1⟩ ∧
     (unified_contract_body ⟨"what is the rent in my contract".toList, some 0⟩
        ⟨[(0, ⟨[⟨"TEXT".toList, "Lease".toList, "q".toList, []⟩], some 0⟩)], 1⟩
        ⟨[Except.ok "QUESTION".toList, Except.ok "It is 1500.".toList],
         []⟩).1.answer = some "It is 1500.".toList) ∧
    ((ask_question_about_case ⟨0, "who won".toList⟩
        ⟨[(0, ⟨"CASE".toList, "a.txt".toList⟩)], 1⟩
        ⟨[Except.ok "The appellant.".toList], []⟩).2.1 =
       ⟨[(0, ⟨"CASE".toList, "a.txt".toList⟩)], 1⟩ ∧
     (ask_question_about_case ⟨0, "who won".toList⟩
        ⟨[(0, ⟨"CASE".toList, "a.txt".toList⟩)], 1⟩
        ⟨[Except.ok "The appellant.".toList], []⟩).1 =
       Except.ok {success := true, question := "who won".toList,
                  answer := some "The appellant.".toList}) := by
  have h1 := (C9_question_frame.1
    ⟨"what is the rent in my contract".toList, some 0⟩
    ⟨[(0, ⟨[⟨"TEXT".toList, "Lease".toList, "q".toList, []⟩], some 0⟩)], 1⟩
    ⟨[Except.ok "QUESTION".toList, Except.ok "It is 1500.".toList], []⟩
    ⟨[Except.ok "QUESTION".toList, Except.ok "It is 1500.".toList], []⟩
    "QUESTION".toList [Except.ok "It is 1500.".toList]
    ⟨"TEXT".toList, "Lease".toList, "q".toList, []⟩
    (by unfold StoreWF; decide) (by decide) rfl rfl rfl rfl)
  have h2 := (C9_question_frame.2 ⟨0, "who won".toList⟩
    ⟨[(0, ⟨"CASE".toList, "a.txt".toList⟩)], 1⟩
    ⟨[Except.ok "The appellant.".toList], []⟩
    ⟨"CASE".toList, "a.txt".toList⟩ rfl)
  exact ⟨⟨by unfold StoreWF; decide, h1.1,
    (h1.2.1 "It is 1500.".toList [] rfl).2⟩,
    h2.1, h2.2 "The appellant.".toList [] rfl⟩

/-!  ### C5 — LLM failure during MODIFY or DRAFT leaves the store intact -/

/-- C5: when the LLM call of a MODIFY or DRAFT operation fails, the response
is `success: false` carrying the upstream error text, and the document store
is exactly what it was when the operation began (after session resolution):
no document content or history is touched, and no document or session entry
is created by the failed operation.  For DRAFT the theorem additionally
relates the operation-start store to the request-start store: every
pre-existing session is preserved verbatim, and any other session entry is
empty (the one session resolution may have minted before the operation). -/
theorem C5_llm_failure_store_intact :
    (∀ (req : Request) (st : Store) (g g₀ : GemState) (itext e : Text)
        (rest : List GemResult) (c : Contract),
      req.query ≠ [] →
      checkQuestionRelevance req.query g = (true, g₀) →
      g₀.script = Except.ok itext :: Except.error e :: rest →
      upperT (trimT itext) = modifyT →
      get_active_contract (create_or_get_session req.session_id st).1
        (create_or_get_session req.session_id st).2 = some c →
      unified_contract_body req st g =
        ({success := false, query := req.query,
          session_id := some (create_or_get_session req.session_id st).1,
          detected_intent := some modifyT,
          error := some (modifyErrT ++ e)},
         (create_or_get_session req.session_id st).2,
         ⟨rest, g₀.sent ++ [formatIntent req.query true,
           formatModify c.contract_text req.query]⟩)) ∧
    (∀ (req : Request) (st : Store) (g g₀ : GemState) (itext e : Text)
        (tr : GemResult) (rest : List GemResult),
      req.query ≠ [] →
      checkQuestionRelevance req.query g = (true, g₀) →
      g₀.script = Except.ok itext :: tr :: Except.error e :: rest →
      upperT (trimT itext) = draftT →
      draftingKeywords.any (fun k => containsSub (lowerT req.query) k) = true →
      (unified_contract_body req st g =
        ({success := false, query := req.query,
          session_id := some (create_or_get_session req.session_id st).1,
          detected_intent := some draftT,
          error := some (draftErrT ++ e)},
         (create_or_get_session req.session_id st).2,
         ⟨rest, g₀.sent ++ [formatIntent req.query
             ((get_active_contract (create_or_get_session req.session_id st).1
               (create_or_get_session req.session_id st).2).isSome),
           formatType req.query, formatDraft req.query]⟩) ∧
       (∀ x s₀, lookupSession st x = some s₀ →
         lookupSession (create_or_get_session req.session_id st).2 x = some s₀) ∧
       (∀ x s₀,
         lookupSession (create_or_get_session req.session_id st).2 x = some s₀ →
         lookupSession st x = some s₀ ∨ s₀.contracts = []))) := by
  constructor
  · intro req st g g₀ itext e rest c hq hrel hscript hint hact
    rw [body_reaches_modify req st g g₀ itext (Except.error e :: rest) c hq
      hrel hscript hint hact]
    unfold handleModify
    simp [callGemini]
  · intro req st g g₀ itext e tr rest hq hrel hscript hint hkw
    refine ⟨?_, ?_, ?_⟩
    · unfold unified_contract_body
      rw [if_neg hq]
      simp only [hrel, callGemini, hscript, List.headD, List.tail, hint]
      rw [if_neg (by simp)]
      rw [if_neg draftT_ne_invalidT, if_pos trivial]
      unfold handleDraft
      rw [if_pos hkw]
      simp [callGemini]
    · intro x s₀ h
      exact create_or_get_session_preserve h
    · intro x s₀ h
      rcases create_or_get_session_new_empty h with h' | h'
      · exact Or.inl h'
      · exact Or.inr (by rw [h'])

/-- Witness for C5: a concrete failing MODIFY on a one-contract session and
a concrete failing DRAFT on a fresh session, both with the scripted upstream
error `"boom"`. -/
theorem C5_llm_failure_store_intact_witness :
    (unified_contract_body ⟨"add a clause to my contract".toList, some 0⟩
        ⟨[(0, ⟨[⟨"TEXT".toList, "Lease".toList, "q".toList, []⟩], some 0⟩)], 1⟩
        ⟨[Except.ok "MODIFY".toList, Except.error "boom".toList], []⟩ =
      ({success := false, query := "add a clause to my contract".toList,
        session_id := some 0, detected_intent := some modifyT,
        error := some (modifyErrT ++ "boom".toList)},
       ⟨[(0, ⟨[⟨"TEXT".toList, "Lease".toList, "q".toList, []⟩], some 0⟩)], 1⟩,
       ⟨[], [formatIntent "add a clause to my contract".toList true,
         formatModify "TEXT".toList "add a clause to my contract".toList]⟩)) ∧
    (unified_contract_body ⟨"draft a contract".toList, none⟩ Store.empty
        ⟨[Except.ok "DRAFT".toList, Except.ok "Lease".toList,
          Except.error "boom".toList], []⟩).1.error =
      some (draftErrT ++ "boom".toList) ∧
    (unified_contract_body ⟨"draft a contract".toList, none⟩ Store.empty
        ⟨[Except.ok "DRAFT".toList, Except.ok "Lease".toList,
          Except.error "boom".toList], []⟩).2.1 =
      (create_or_get_session none Store.empty).2 := by
  have h1 := C5_llm_failure_store_intact.1
    ⟨"add a clause to my contract".toList, some 0⟩
    ⟨[(0, ⟨[⟨"TEXT".toList, "Lease".toList, "q".toList, []⟩], some 0⟩)], 1⟩
    ⟨[Except.ok "MODIFY".toList, Except.error "boom".toList], []⟩
    ⟨[Except.ok "MODIFY".toList, Except.error "boom".toList], []⟩
    "MODIFY".toList "boom".toList []
    ⟨"TEXT".toList, "Lease".toList, "q".toList, []⟩
    (by decide) rfl rfl rfl rfl
  have h2 := C5_llm_failure_store_intact.2
    ⟨"draft a contract".toList, none⟩ Store.empty
    ⟨[Except.ok "DRAFT".toList, Except.ok "Lease".toList,
      Except.error "boom".toList], []⟩
    ⟨[Except.ok "DRAFT".toList, Except.ok "Lease".toList,
      Except.error "boom".toList], []⟩
    "DRAFT".toList "boom".toList (Except.ok "Lease".toList) []
    (by decide) rfl rfl rfl (by decide)
  exact ⟨h1, by rw [h2.1], by rw [h2.1]⟩

/-!  ### C3 — prompt truncation -/

/-- The QUESTION handler always sends exactly one prompt embedding the
20000-character prefix, whatever the scripted outcome. -/
theorem handleQuestion_gem (query : Text) (sid : Nat) (c : Contract)
    (st : Store) (g : GemState) :
    (handleQuestion query sid c st g).2.2 =
      ⟨g.script.tail,
       g.sent ++ [formatQA (c.contract_text.take 20000) query]⟩ := by
  unfold handleQuestion
  simp only [callGemini]
  cases g.script.headD (Except.error scriptOutT) <;> rfl

/-- The ANALYZE handler always sends exactly one prompt embedding the
20000-character prefix. -/
theorem handleAnalyze_gem (query : Text) (sid : Nat) (c : Contract)
    (st : Store) (g : GemState) :
    (handleAnalyze query sid c st g).2.2 =
      ⟨g.script.tail,
       g.sent ++ [formatAnalyze (c.contract_text.take 20000)]⟩ := by
  unfold handleAnalyze
  simp only [callGemini]
  cases g.script.headD (Except.error scriptOutT) <;> rfl

/-- The MODIFY handler always sends exactly one prompt embedding the *full*
stored content. -/
theorem handleModify_gem (query : Text) (sid : Nat) (c : Contract)
    (st : Store) (g : GemState) :
    (handleModify query sid c st g).2.2 =
      ⟨g.script.tail,
       g.sent ++ [formatModify c.contract_text query]⟩ := by
  unfold handleModify
  simp only [callGemini]
  cases g.script.headD (Except.error scriptOutT) <;> rfl

/-- C3 counterexample: with a stored contract of 20001 characters, the
MODIFY operation interpolates the *full* stored content into the LLM prompt
(src/contract_draft.py lines 762–768 take `active_contract["contract_text"]`
with no `[:20000]`), and that prompt differs from the one that the claimed
prefix truncation would have produced. -/
theorem C3_counterexample :
    (unified_contract_body ⟨"add a clause to my contract".toList, some 0⟩
        ⟨[(0, ⟨[⟨List.replicate 20001 'a', "Lease".toList, "q".toList, []⟩],
            some 0⟩)], 1⟩
        ⟨[Except.ok "MODIFY".toList], []⟩).2.2.sent =
      [formatIntent "add a clause to my contract".toList true,
       formatModify (List.replicate 20001 'a')
         "add a clause to my contract".toList] ∧
    formatModify (List.replicate 20001 'a')
        "add a clause to my contract".toList ≠
      formatModify ((List.replicate 20001 'a').take 20000)
        "add a clause to my contract".toList := by
  constructor
  · rw [body_reaches_modify ⟨"add a clause to my contract".toList, some 0⟩
      ⟨[(0, ⟨[⟨List.replicate 20001 'a', "Lease".toList, "q".toList, []⟩],
          some 0⟩)], 1⟩
      ⟨[Except.ok "MODIFY".toList], []⟩ ⟨[Except.ok "MODIFY".toList], []⟩
      "MODIFY".toList []
      ⟨List.replicate 20001 'a', "Lease".toList, "q".toList, []⟩
      (by decide) rfl rfl rfl rfl]
    rw [handleModify_gem]
    rfl
  · intro h
    have hl := congrArg List.length h
    simp only [formatModify, List.length_append, List.length_replicate,
      List.length_take] at hl
    omega

/-- C3 as amended: the QUESTION and ANALYZE operations and the upload-time
summary embed exactly the 20000-character prefix of the stored content into
the LLM prompt (silent deterministic prefix truncation), while the MODIFY
operation embeds the full stored content with no truncation. -/
theorem C3_amended_truncation :
    (∀ (req : Request) (st : Store) (g g₀ : GemState) (itext : Text)
        (sc' : List GemResult) (c : Contract),
      req.query ≠ [] →
      checkQuestionRelevance req.query g = (true, g₀) →
      g₀.script = Except.ok itext :: sc' →
      upperT (trimT itext) = questionT →
      get_active_contract (create_or_get_session req.session_id st).1
        (create_or_get_session req.session_id st).2 = some c →
      ((unified_contract_body req st g).2.2.sent =
        g₀.sent ++ [formatIntent req.query true,
          formatQA (c.contract_text.take 20000) req.query] ∧
       (∃ r, c.contract_text.take 20000 ++ r = c.contract_text) ∧
       (c.contract_text.take 20000).length ≤ 20000)) ∧
    (∀ (req : Request) (st : Store) (g g₀ : GemState) (itext : Text)
        (sc' : List GemResult) (c : Contract),
      req.query ≠ [] →
      checkQuestionRelevance req.query g = (true, g₀) →
      g₀.script = Except.ok itext :: sc' →
      upperT (trimT itext) = analyzeT →
      get_active_contract (create_or_get_session req.session_id st).1
        (create_or_get_session req.session_id st).2 = some c →
      ((unified_contract_body req st g).2.2.sent =
        g₀.sent ++ [formatIntent req.query true,
          formatAnalyze (c.contract_text.take 20000)] ∧
       (∃ r, c.contract_text.take 20000 ++ r = c.contract_text))) ∧
    (∀ (req : Request) (st : Store) (g g₀ : GemState) (itext : Text)
        (sc' : List GemResult) (c : Contract),
      req.query ≠ [] →
      checkQuestionRelevance req.query g = (true, g₀) →
      g₀.script = Except.ok itext :: sc' →
      upperT (trimT itext) = modifyT →
      get_active_contract (create_or_get_session req.session_id st).1
        (create_or_get_session req.session_id st).2 = some c →
      (unified_contract_body req st g).2.2.sent =
        g₀.sent ++ [formatIntent req.query true,
          formatModify c.contract_text req.query]) ∧
    (∀ (filename caseText : Text) (st : CaseStore) (g : GemState),
      filename ≠ [] →
      (lowerT (lastDotSegment filename) == "pdf".toList ||
        lowerT (lastDotSegment filename) == "txt".toList) = true →
      ((upload_and_analyze_case filename caseText st g).2.2.sent =
        g.sent ++ [formatCaseSummary (caseText.take 20000)] ∧
       (∃ r, caseText.take 20000 ++ r = caseText) ∧
       (caseText.take 20000).length ≤ 20000)) := by
  refine ⟨?_, ?_, ?_, ?_⟩
  · intro req st g g₀ itext sc' c hq hrel hscript hint hact
    rw [body_reaches_question req st g g₀ itext sc' c hq hrel hscript hint
      hact]
    refine ⟨?_, ⟨c.contract_text.drop 20000, List.take_append_drop _ _⟩, ?_⟩
    · rw [handleQuestion_gem]
      simp
    · rw [List.length_take]
      exact min_le_left _ _
  · intro req st g g₀ itext sc' c hq hrel hscript hint hact
    rw [body_reaches_analyze req st g g₀ itext sc' c hq hrel hscript hint
      hact]
    refine ⟨?_, ⟨c.contract_text.drop 20000, List.take_append_drop _ _⟩⟩
    rw [handleAnalyze_gem]
    simp
  · intro req st g g₀ itext sc' c hq hrel hscript hint hact
    rw [body_reaches_modify req st g g₀ itext sc' c hq hrel hscript hint
      hact]
    rw [handleModify_gem]
    simp
  · intro filename caseText st g hf hext
    unfold upload_and_analyze_case
    rw [if_neg hf, if_neg (by simp only [hext]; decide)]
    refine ⟨?_, ⟨caseText.drop 20000, List.take_append_drop _ _⟩, ?_⟩
    · simp only [callGemini]
      cases g.script.headD (Except.error scriptOutT) <;> rfl
    · rw [List.length_take]
      exact min_le_left _ _

/-- Witness for C3's amended theorem: concrete QUESTION, ANALYZE, MODIFY and
upload runs over short stored texts. -/
theorem C3_amended_truncation_witness :
    ((unified_contract_body ⟨"what is the rent in my contract".toList, some 0⟩
        ⟨[(0, ⟨[⟨"TEXT".toList, "Lease".toList, "q".toList, []⟩], some 0⟩)], 1⟩
        ⟨[Except.ok "QUESTION".toList], []⟩).2.2.sent =
      [formatIntent "what is the rent in my contract".toList true,
       formatQA ("TEXT".toList.take 20000)
         "what is the rent in my contract".toList]) ∧
    ((unified_contract_body ⟨"analyze my contract".toList, some 0⟩
        ⟨[(0, ⟨[⟨"TEXT".toList, "Lease".toList, "q".toList, []⟩], some 0⟩)], 1⟩
        ⟨[Except.ok "ANALYZE".toList], []⟩).2.2.sent =
      [formatIntent "analyze my contract".toList true,
       formatAnalyze ("TEXT".toList.take 20000)]) ∧
    ((unified_contract_body ⟨"add a clause to my contract".toList, some 0⟩
        ⟨[(0, ⟨[⟨"TEXT".toList, "Lease".toList, "q".toList, []⟩], some 0⟩)], 1⟩
        ⟨[Except.ok "MODIFY".toList], []⟩).2.2.sent =
      [formatIntent "add a clause to my contract".toList true,
       formatModify "TEXT".toList "add a clause to my contract".toList]) ∧
    ((upload_and_analyze_case "a.txt".toList "CASE".toList CaseStore.empty
        ⟨[], []⟩).2.2.sent =
      [formatCaseSummary ("CASE".toList.take 20000)]) := by
  have h1 := C3_amended_truncation.1
    ⟨"what is the rent in my contract".toList, some 0⟩
    ⟨[(0, ⟨[⟨"TEXT".toList, "Lease".toList, "q".toList, []⟩], some 0⟩)], 1⟩
    ⟨[Except.ok "QUESTION".toList], []⟩ ⟨[Except.ok "QUESTION".toList], []⟩
    "QUESTION".toList [] ⟨"TEXT".toList, "Lease".toList, "q".toList, []⟩
    (by decide) rfl rfl rfl rfl
  have h2 := C3_amended_truncation.2.1 ⟨"analyze my contract".toList, some 0⟩
    ⟨[(0, ⟨[⟨"TEXT".toList, "Lease".toList, "q".toList, []⟩], some 0⟩)], 1⟩
    ⟨[Except.ok "ANALYZE".toList], []⟩ ⟨[Except.ok "ANALYZE".toList], []⟩
    "ANALYZE".toList [] ⟨"TEXT".toList, "Lease".toList, "q".toList, []⟩
    (by decide) rfl rfl rfl rfl
  have h3 := C3_amended_truncation.2.2.1
    ⟨"add a clause to my contract".toList, some 0⟩
    ⟨[(0, ⟨[⟨"TEXT".toList, "Lease".toList, "q".toList, []⟩], some 0⟩)], 1⟩
    ⟨[Except.ok "MODIFY".toList], []⟩ ⟨[Except.ok "MODIFY".toList], []⟩
    "MODIFY".toList [] ⟨"TEXT".toList, "Lease".toList, "q".toList, []⟩
    (by decide) rfl rfl rfl rfl
  have h4 := C3_amended_truncation.2.2.2 "a.txt".toList "CASE".toList
    CaseStore.empty ⟨[], []⟩ (by decide) (by decide)
  exact ⟨h1.1, h2.1, h3, h4.1⟩

/-!  ### C2 — repeated successful DRAFT operations

A run of N successful DRAFT operations against one session: the first
request carries no session id (creating the session), each later request
reuses the returned id; every request uses the drafting query below and a
script on which classification answers DRAFT, type detection answers a fixed
type, and the drafting call succeeds with the given body. -/

/-- The fixed drafting query of the C2 runs (relevant via its keywords). -/
def draftQueryT : Text := "draft a contract agreement".toList

/-- The scripted contract-type answer of the C2 runs. -/
def typeRespT : Text := "Lease Agreement".toList

/-- The script of one successful DRAFT request: classification says DRAFT,
type detection answers, drafting returns `b`. -/
def draftScript (b : Text) : GemState :=
  ⟨[Except.ok draftT, Except.ok typeRespT, Except.ok b], []⟩

/-- One DRAFT request against the endpoint. -/
def draftStepR (sid? : Option Nat) (st : Store) (b : Text) :
    Response × Store × GemState :=
  unified_contract_endpoint none ⟨draftQueryT, sid?⟩ st (draftScript b)

/-- The contract that a successful C2 draft step stores. -/
def draftedContract (b : Text) : Contract :=
  ⟨b, trimT typeRespT, draftQueryT, []⟩

/-- Run the remaining DRAFT requests against an existing session. -/
def runDraftsFrom (sid : Nat) : Store → List Text → Store
  | st, [] => st
  | st, b :: bs => runDraftsFrom sid (draftStepR (some sid) st b).2.1 bs

/-- Run N DRAFT requests from a fresh process: the first creates the
session, the rest reuse its id. -/
def runDrafts : List Text → Option Nat × Store
  | [] => (none, Store.empty)
  | b :: bs =>
    match (draftStepR none Store.empty b).1.session_id with
    | none => (none, (draftStepR none Store.empty b).2.1)
    | some sid => (some sid, runDraftsFrom sid (draftStepR none Store.empty b).2.1 bs)

theorem upperT_trimT_draftT : upperT (trimT draftT) = draftT := by decide

/-- A successful DRAFT step on a live session appends the drafted contract
and makes it active, touching nothing else. -/
theorem draftStepR_effect {st : Store} {sid : Nat} {s : Session} (b : Text)
    (h : lookupSession st sid = some s) :
    draftStepR (some sid) st b =
      ({success := true, query := draftQueryT, session_id := some sid,
        contract_text := some b, contract_type := some (trimT typeRespT),
        detected_intent := some draftT, is_new_session := some false,
        contracts_in_session := some (get_contracts_summary sid
          (setSession st sid ⟨s.contracts ++ [draftedContract b],
            some s.contracts.length⟩))},
       setSession st sid ⟨s.contracts ++ [draftedContract b],
         some s.contracts.length⟩,
       ⟨[], [formatIntent draftQueryT (get_active_contract sid st).isSome,
         formatType draftQueryT, formatDraft draftQueryT]⟩) := by
  have hrel : checkQuestionRelevance draftQueryT (draftScript b) =
      (true, draftScript b) := rfl
  unfold draftStepR unified_contract_endpoint unified_contract_body
  rw [if_neg (show ¬draftQueryT = [] by decide)]
  simp only [hrel]
  rw [if_neg (by simp)]
  rw [create_or_get_session_live h]
  simp only [draftScript, callGemini, List.headD, List.tail,
    upperT_trimT_draftT]
  rw [if_neg draftT_ne_invalidT, if_pos trivial]
  unfold handleDraft
  rw [if_pos (by decide)]
  simp only [callGemini, List.headD, List.tail]
  rw [add_contract_to_session_eq _ _ _ h]
  simp only [h]
  rfl

/-- The first DRAFT step from the empty store creates session 0 holding the
single drafted contract, active. -/
theorem draftStepR_first (b : Text) :
    draftStepR none Store.empty b =
      ({success := true, query := draftQueryT, session_id := some 0,
        contract_text := some b, contract_type := some (trimT typeRespT),
        detected_intent := some draftT, is_new_session := some true,
        contracts_in_session := some [(0, trimT typeRespT)]},
       ⟨[(0, ⟨[draftedContract b], some 0⟩)], 1⟩,
       ⟨[], [formatIntent draftQueryT false, formatType draftQueryT,
         formatDraft draftQueryT]⟩) := rfl

/-- Folding further successful DRAFT steps over a live session whose last
contract is active appends one contract per step and leaves the last one
active. -/
theorem runDraftsFrom_effect (sid : Nat) (bs : List Text) :
    ∀ (st : Store) (s : Session), lookupSession st sid = some s →
    s.active_contract_id = some (s.contracts.length - 1) →
    lookupSession (runDraftsFrom sid st bs) sid =
      some ⟨s.contracts ++ bs.map draftedContract,
            some (s.contracts.length + bs.length - 1)⟩ := by
  induction bs with
  | nil =>
    intro st s h hact
    obtain ⟨cs, act⟩ := s
    simp only at hact
    subst hact
    simpa [runDraftsFrom] using h
  | cons b bs ih =>
    intro st s h hact
    simp only [runDraftsFrom]
    have h2 : lookupSession (draftStepR (some sid) st b).2.1 sid =
        some ⟨s.contracts ++ [draftedContract b],
          some s.contracts.length⟩ := by
      rw [draftStepR_effect b h]
      exact lookupSession_setSession_self _ h
    have h3 := ih _ _ h2 (by simp)
    rw [h3]
    simp only [Option.some.injEq, Session.mk.injEq, List.map_cons,
      List.length_append, List.length_cons, List.length_nil]
    constructor
    · simp [List.append_assoc]
    · congr 1
      omega

/-- C2: after N ≥ 1 successful DRAFT operations in one session, the session
holds exactly the N drafted documents in order, the Nth (last) one is the
active document, the active pointer designates at most one document, and no
earlier document was deleted (all N bodies are still stored). -/
theorem C2_draft_session_growth (bodies : List Text) (h : bodies ≠ []) :
    ∃ sid s, (runDrafts bodies).1 = some sid ∧
      lookupSession (runDrafts bodies).2 sid = some s ∧
      s.contracts.map (fun c => c.contract_text) = bodies ∧
      s.active_contract_id = some (bodies.length - 1) ∧
      (∀ i j, s.active_contract_id = some i → s.active_contract_id = some j →
        i = j) := by
  match bodies, h with
  | b :: bs, _ =>
    have hfirst := draftStepR_first b
    have hsid : (draftStepR none Store.empty b).1.session_id = some 0 := by
      rw [hfirst]
    have hrun : runDrafts (b :: bs) =
        (some 0, runDraftsFrom 0 (draftStepR none Store.empty b).2.1 bs) := by
      simp only [runDrafts]
      rw [hsid]
    have h0 : lookupSession (draftStepR none Store.empty b).2.1 0 =
        some ⟨[draftedContract b], some 0⟩ := by
      rw [hfirst]
      rfl
    have heff := runDraftsFrom_effect 0 bs _ _ h0 (by simp)
    refine ⟨0, ⟨[draftedContract b] ++ bs.map draftedContract,
      some (1 + bs.length - 1)⟩,
      by rw [hrun], by rw [hrun]; simpa using heff, ?_, ?_, ?_⟩
    · have hcomp : ((fun c : Contract => c.contract_text) ∘ draftedContract) =
          fun b : Text => b := rfl
      simp [hcomp, draftedContract]
    · simp only [List.length_cons]
      congr 1
      omega
    · intro i j hi hj
      rw [hi] at hj
      exact (Option.some.inj hj)

/-- Witness for C2: two successful drafts. -/
theorem C2_draft_session_growth_witness :
    (["A".toList, "B".toList] ≠ ([] : List Text)) ∧
    (∃ sid s, (runDrafts ["A".toList, "B".toList]).1 = some sid ∧
      lookupSession (runDrafts ["A".toList, "B".toList]).2 sid = some s ∧
      s.contracts.map (fun c => c.contract_text) = ["A".toList, "B".toList] ∧
      s.active_contract_id = some (["A".toList, "B".toList].length - 1) ∧
      (∀ i j, s.active_contract_id = some i → s.active_contract_id = some j →
        i = j)) :=
  ⟨by decide, C2_draft_session_growth ["A".toList, "B".toList] (by decide)⟩

/-!  ### C4 — the Output Normalizer

Spec section 4.5 describes an output normalizer with no source under
`src/`; every definition of this section is modelled from the spec's words:
strip common LLM markdown artifacts (fenced code block delimiters, inline
emphasis markers, heading markers, escaped quote sequences), collapse runs
of blank lines to at most one blank line, then re-wrap each overlong line —
headings (ALL-CAPS lines) pass through unwrapped, numbered-clause lines
`"<n>. TITLE: content"` split into a title line and an indented word-wrapped
content block, lettered-subsection lines `"(a) content"` keep their prefix
and wrap with a fixed continuation indent, and all other long lines are
word-wrapped at the configured width without breaking words. -/

/-- The backtick character (written via its code point). -/
def backtickC : Char := Char.ofNat 96

/-- Modelled from the spec: a character survives artifact stripping unless
it is a markdown artifact character — an emphasis marker `*`, a heading
marker `#`, a backslash (of escaped quote sequences), or a backtick (of
fenced code block delimiters). -/
def keepChar (c : Char) : Bool :=
  !(c == '*' || c == '#' || c == '\\' || c == backtickC)

/-- Modelled from the spec: strip markdown artifacts from one line. -/
def stripLine (l : Text) : Text := l.filter keepChar

/-- A blank line: nothing but spaces. -/
def isBlankB (l : Text) : Bool := l.all (fun c => c == ' ')

/-- Canonicalize a blank line to the empty line. -/
def canon (l : Text) : Text := if isBlankB l then [] else l

/-- Modelled from the spec: collapse each run of blank lines to a single
blank line (so the normalizer never emits two adjacent blank lines). -/
def dedup : List Text → List Text
  | [] => []
  | [a] => [a]
  | a :: b :: r =>
    if a.isEmpty && b.isEmpty then dedup (b :: r) else a :: dedup (b :: r)

/-- No two adjacent blank lines. -/
def noAdjBlank : List Text → Bool
  | [] => true
  | [_] => true
  | a :: b :: r => (!(a.isEmpty && b.isEmpty)) && noAdjBlank (b :: r)

/-- Not the space character. -/
def notSpaceB (c : Char) : Bool := !(c == ' ')

theorem length_dropWhileB_le (p : Char → Bool) :
    ∀ l : Text, (dropWhileB p l).length ≤ l.length
  | [] => Nat.le_refl _
  | c :: cs => by
    rw [dropWhileB]
    by_cases h : p c = true
    · rw [if_pos h]
      exact Nat.le_succ_of_le (length_dropWhileB_le p cs)
    · rw [if_neg h]

/-- The whitespace-separated words of a line. -/
def words : Text → List Text
  | [] => []
  | c :: cs =>
    if c = ' ' then words cs
    else (c :: takeWhileB notSpaceB cs) :: words (dropWhileB notSpaceB cs)
termination_by l => l.length
decreasing_by
  · simp only [List.length_cons]
    omega
  · simp only [List.length_cons]
    have := length_dropWhileB_le notSpaceB cs
    omega

/-- Greedy word filling: keep adding words to the current line while the
capacity allows, emitting full lines; a word longer than the capacity
occupies a line of its own (words are never broken). -/
def wrapWordsGo (cap : Nat) : Text → List Text → List Text
  | cur, [] => [cur]
  | cur, u :: us =>
    if cur.length + 1 + u.length ≤ cap then
      wrapWordsGo cap (cur ++ ' ' :: u) us
    else cur :: wrapWordsGo cap u us

/-- Greedy word wrap of a word list into content chunks of at most `cap`
characters (except single oversized words). -/
def wrapWords (cap : Nat) : List Text → List Text
  | [] => []
  | u :: us => wrapWordsGo cap u us

/-- Decimal digit test. -/
def isDigitB (c : Char) : Bool := c.isDigit

/-- Not the colon character. -/
def notColonB (c : Char) : Bool := !(c == ':')

/-- Modelled from the spec: recognise a numbered-clause line
`"<n>. TITLE: content"` — leading digits, a dot and a space, and a colon
after the title; yields the title line (through the first colon) and the
content after it. -/
def parseNumbered (l : Text) : Option (Text × Text) :=
  let ds := takeWhileB isDigitB l
  let r := dropWhileB isDigitB l
  if ds ≠ [] ∧ r.take 2 = ['.', ' '] ∧ (r.drop 2).any (fun c => c == ':') then
    some (ds ++ '.' :: ' ' :: (takeWhileB notColonB (r.drop 2) ++ [':']),
          (dropWhileB notColonB (r.drop 2)).tail)
  else none

/-- Modelled from the spec: recognise a lettered-subsection line
`"(a) content"`. -/
def parseLettered : Text → Option (Char × Text)
  | a :: b :: c :: d :: rest =>
    if a = '(' ∧ b.isAlpha ∧ c = ')' ∧ d = ' ' then some (b, rest) else none
  | _ => none

/-- Does the line contain a lowercase letter?  A line without one is
treated as a heading / ALL-CAPS line. -/
def hasLowerB (l : Text) : Bool := l.any (fun c => c.isLower)

/-- The fixed content indent of split numbered clauses. -/
def indent3 : Text := [' ', ' ', ' ']

/-- The fixed continuation indent of lettered subsections. -/
def indent4 : Text := [' ', ' ', ' ', ' ']

/-- Word-wrap `content` at width `w` with every emitted line prefixed by
`ind`. -/
def wrapIndent (w : Nat) (ind content : Text) : List Text :=
  (wrapWords (w - ind.length) (words content)).map (fun ch => ind ++ ch)

/-- Modelled from the spec: re-wrap one line.  Short lines and lines
without lowercase letters (headings / ALL-CAPS) pass through unwrapped;
numbered-clause lines split into a title line plus an indented wrapped
content block; lettered-subsection lines keep their prefix and wrap with a
fixed continuation indent; every other overlong line is word-wrapped at the
configured width, preserving its leading indentation and never breaking
words. -/
def wrapLine (w : Nat) (l : Text) : List Text :=
  if l.length ≤ w then [l]
  else if hasLowerB l = false then [l]
  else
    match parseNumbered l with
    | some (title, content) => title :: wrapIndent w indent3 content
    | none =>
      match parseLettered l with
      | some (b, rest) =>
        match wrapWords (w - 4) (words rest) with
        | [] => [['(', b, ')', ' ']]
        | ch :: chs =>
          (['(', b, ')', ' '] ++ ch) :: chs.map (fun ch2 => indent4 ++ ch2)
      | none =>
        wrapIndent w (takeWhileB (fun c => c == ' ') l)
          (dropWhileB (fun c => c == ' ') l)

/-- `concatMap` (own definition, for clean induction). -/
def concatMap (f : Text → List Text) : List Text → List Text
  | [] => []
  | l :: ls => f l ++ concatMap f ls

/-- Modelled from the spec: the line-level normalizer core — strip
artifacts, collapse blank runs, re-wrap. -/
def normCore (w : Nat) (ls : List Text) : List Text :=
  concatMap (wrapLine w) (dedup ((ls.map stripLine).map canon))

/-- Split a text on a separator character (like `str.split`). -/
def splitOnChar (sep : Char) : Text → List Text
  | [] => [[]]
  | c :: cs =>
    if c = sep then [] :: splitOnChar sep cs
    else
      match splitOnChar sep cs with
      | [] => [[c]]
      | t :: ts => (c :: t) :: ts

/-- Join lines with a separator character. -/
def joinSep (sep : Char) : List Text → Text
  | [] => []
  | [t] => t
  | t :: t' :: ts => t ++ sep :: joinSep sep (t' :: ts)

/-- Modelled from the spec: `normalize(raw_text, max_line_length)` — the
Output Normalizer of spec section 4.5. -/
def normalize (w : Nat) (x : Text) : Text :=
  joinSep '\n' (normCore w (splitOnChar '\n' x))

/-!  #### takeWhileB / dropWhileB lemmas -/

theorem takeWhileB_all (p : Char → Bool) :
    ∀ l : Text, ∀ c ∈ takeWhileB p l, p c = true
  | [] => by simp [takeWhileB]
  | a :: as => by
    rw [takeWhileB]
    by_cases h : p a = true
    · rw [if_pos h]
      intro c hc
      rcases List.mem_cons.1 hc with rfl | hc
      · exact h
      · exact takeWhileB_all p as c hc
    · rw [if_neg h]
      simp

theorem mem_takeWhileB (p : Char → Bool) :
    ∀ l : Text, ∀ c ∈ takeWhileB p l, c ∈ l
  | [] => by simp [takeWhileB]
  | a :: as => by
    rw [takeWhileB]
    by_cases h : p a = true
    · rw [if_pos h]
      intro c hc
      rcases List.mem_cons.1 hc with rfl | hc
      · simp
      · exact List.mem_cons_of_mem _ (mem_takeWhileB p as c hc)
    · rw [if_neg h]
      simp

theorem mem_dropWhileB (p : Char → Bool) :
    ∀ l : Text, ∀ c ∈ dropWhileB p l, c ∈ l
  | [] => by simp [dropWhileB]
  | a :: as => by
    rw [dropWhileB]
    by_cases h : p a = true
    · rw [if_pos h]
      intro c hc
      exact List.mem_cons_of_mem _ (mem_dropWhileB p as c hc)
    · rw [if_neg h]
      exact fun c hc => hc

theorem takeWhileB_append_all {p : Char → Bool} :
    ∀ {xs : Text}, (∀ c ∈ xs, p c = true) → ∀ ys : Text,
    takeWhileB p (xs ++ ys) = xs ++ takeWhileB p ys
  | [], _, ys => rfl
  | a :: as, h, ys => by
    rw [List.cons_append, takeWhileB, if_pos (h a (by simp))]
    rw [takeWhileB_append_all (fun c hc => h c (List.mem_cons_of_mem _ hc)) ys]
    rfl

theorem dropWhileB_append_all {p : Char → Bool} :
    ∀ {xs : Text}, (∀ c ∈ xs, p c = true) → ∀ ys : Text,
    dropWhileB p (xs ++ ys) = dropWhileB p ys
  | [], _, ys => rfl
  | a :: as, h, ys => by
    rw [List.cons_append, dropWhileB, if_pos (h a (by simp))]
    exact dropWhileB_append_all (fun c hc => h c (List.mem_cons_of_mem _ hc)) ys

theorem takeWhileB_cons_false {p : Char → Bool} {c : Char} (cs : Text)
    (h : p c = false) : takeWhileB p (c :: cs) = [] := by
  rw [takeWhileB, if_neg (by simp [h])]

theorem dropWhileB_cons_false {p : Char → Bool} {c : Char} (cs : Text)
    (h : p c = false) : dropWhileB p (c :: cs) = c :: cs := by
  rw [dropWhileB, if_neg (by simp [h])]

theorem takeWhileB_append_dropWhileB (p : Char → Bool) :
    ∀ l : Text, takeWhileB p l ++ dropWhileB p l = l
  | [] => rfl
  | a :: as => by
    rw [takeWhileB, dropWhileB]
    by_cases h : p a = true
    · rw [if_pos h, if_pos h, List.cons_append,
        takeWhileB_append_dropWhileB p as]
    · rw [if_neg h, if_neg h]
      rfl

/-!  #### words lemmas -/

theorem words_word (l : Text) : ∀ u ∈ words l, u ≠ [] ∧ ∀ c ∈ u, c ≠ ' ' := by
  induction l using words.induct with
  | case1 => simp [words]
  | case2 cs ih =>
    rw [words, if_pos rfl]
    exact ih
  | case3 c cs h ih =>
    rw [words, if_neg h]
    intro u hu
    rcases List.mem_cons.1 hu with rfl | hu
    · refine ⟨by simp, ?_⟩
      intro x hx
      rcases List.mem_cons.1 hx with rfl | hx
      · exact h
      · simpa [notSpaceB] using takeWhileB_all notSpaceB cs x hx
    · exact ih u hu

theorem words_mem (l : Text) : ∀ u ∈ words l, ∀ c ∈ u, c ∈ l := by
  induction l using words.induct with
  | case1 => simp [words]
  | case2 cs ih =>
    rw [words, if_pos rfl]
    intro u hu x hx
    exact List.mem_cons_of_mem _ (ih u hu x hx)
  | case3 c cs h ih =>
    rw [words, if_neg h]
    intro u hu x hx
    rcases List.mem_cons.1 hu with rfl | hu
    · rcases List.mem_cons.1 hx with rfl | hx
      · simp
      · exact List.mem_cons_of_mem _ (mem_takeWhileB notSpaceB cs x hx)
    · exact List.mem_cons_of_mem _
        (mem_dropWhileB notSpaceB cs x (ih u hu x hx))

theorem words_single {l : Text} (h0 : l ≠ []) (h : ∀ c ∈ l, c ≠ ' ') :
    words l = [l] := by
  match l, h0 with
  | a :: as, _ =>
    rw [words, if_neg (h a (by simp))]
    have hall : ∀ c ∈ as, notSpaceB c = true := by
      intro c hc
      simp [notSpaceB, h c (List.mem_cons_of_mem _ hc)]
    have ht : takeWhileB notSpaceB as = as := by
      have := takeWhileB_append_all hall []
      simpa [takeWhileB] using this
    have hd : dropWhileB notSpaceB as = [] := by
      have := dropWhileB_append_all hall []
      simpa [dropWhileB] using this
    rw [ht, hd, words]

theorem words_ne_nil : ∀ {l : Text} {c : Char}, c ∈ l → c ≠ ' ' →
    words l ≠ []
  | [], _, hc, _ => by simp at hc
  | a :: as, c, hc, hcs => by
    rw [words]
    by_cases h : a = ' '
    · rw [if_pos h]
      rcases List.mem_cons.1 hc with rfl | hc'
      · exact absurd h hcs
      · exact words_ne_nil hc' hcs
    · rw [if_neg h]
      simp

/-!  #### wrapWords invariants -/

/-- The invariant of greedy-wrap chunks: nonempty, containing a nonspace
character, and either within the capacity or a single (space-free) word. -/
def GoodChunk (cap : Nat) (ch : Text) : Prop :=
  ch ≠ [] ∧ (∃ c ∈ ch, c ≠ ' ') ∧ (ch.length ≤ cap ∨ ∀ c ∈ ch, c ≠ ' ')

theorem wrapWordsGo_good (cap : Nat) :
    ∀ (ws : List Text) (cur : Text), GoodChunk cap cur →
    (∀ u ∈ ws, u ≠ [] ∧ ∀ c ∈ u, c ≠ ' ') →
    ∀ ch ∈ wrapWordsGo cap cur ws, GoodChunk cap ch
  | [], cur, hcur, _, ch, hch => by
    rw [wrapWordsGo] at hch
    rcases List.mem_singleton.1 hch with rfl
    exact hcur
  | u :: us, cur, hcur, hws, ch, hch => by
    rw [wrapWordsGo] at hch
    by_cases hfit : cur.length + 1 + u.length ≤ cap
    · rw [if_pos hfit] at hch
      refine wrapWordsGo_good cap us (cur ++ ' ' :: u) ?_
        (fun v hv => hws v (List.mem_cons_of_mem _ hv)) ch hch
      obtain ⟨c0, hc0, hc0s⟩ := hcur.2.1
      refine ⟨by simp, ⟨c0, List.mem_append_left _ hc0, hc0s⟩, Or.inl ?_⟩
      simp only [List.length_append, List.length_cons]
      omega
    · rw [if_neg hfit] at hch
      rcases List.mem_cons.1 hch with rfl | hch
      · exact hcur
      · obtain ⟨hu1, hu2⟩ := hws u (by simp)
        refine wrapWordsGo_good cap us u ?_
          (fun v hv => hws v (List.mem_cons_of_mem _ hv)) ch hch
        match u, hu1 with
        | c0 :: u', _ =>
          exact ⟨by simp, ⟨c0, by simp, hu2 c0 (by simp)⟩, Or.inr hu2⟩

theorem wrapWords_good (cap : Nat) (ws : List Text)
    (hws : ∀ u ∈ ws, u ≠ [] ∧ ∀ c ∈ u, c ≠ ' ') :
    ∀ ch ∈ wrapWords cap ws, GoodChunk cap ch := by
  match ws with
  | [] => simp [wrapWords]
  | u :: us =>
    obtain ⟨hu1, hu2⟩ := hws u (by simp)
    refine wrapWordsGo_good cap us u ?_
      (fun v hv => hws v (List.mem_cons_of_mem _ hv))
    match u, hu1 with
    | c0 :: u', _ =>
      exact ⟨by simp, ⟨c0, by simp, hu2 c0 (by simp)⟩, Or.inr hu2⟩

theorem wrapWordsGo_ne_nil (cap : Nat) :
    ∀ (ws : List Text) (cur : Text), wrapWordsGo cap cur ws ≠ []
  | [], cur => by simp [wrapWordsGo]
  | u :: us, cur => by
    rw [wrapWordsGo]
    by_cases hfit : cur.length + 1 + u.length ≤ cap
    · rw [if_pos hfit]
      exact wrapWordsGo_ne_nil cap us (cur ++ ' ' :: u)
    · rw [if_neg hfit]
      simp

/-- Character-predicate propagation through greedy wrap: chunks consist of
word characters and spaces. -/
theorem wrapWordsGo_chars (cap : Nat) (P : Char → Prop) (hP : P ' ') :
    ∀ (ws : List Text) (cur : Text), (∀ c ∈ cur, P c) →
    (∀ u ∈ ws, ∀ c ∈ u, P c) →
    ∀ ch ∈ wrapWordsGo cap cur ws, ∀ c ∈ ch, P c
  | [], cur, hcur, _, ch, hch => by
    rw [wrapWordsGo] at hch
    rcases List.mem_singleton.1 hch with rfl
    exact hcur
  | u :: us, cur, hcur, hws, ch, hch => by
    rw [wrapWordsGo] at hch
    by_cases hfit : cur.length + 1 + u.length ≤ cap
    · rw [if_pos hfit] at hch
      refine wrapWordsGo_chars cap P hP us (cur ++ ' ' :: u) ?_
        (fun v hv => hws v (List.mem_cons_of_mem _ hv)) ch hch
      intro c hc
      rcases List.mem_append.1 hc with hc | hc
      · exact hcur c hc
      · rcases List.mem_cons.1 hc with rfl | hc
        · exact hP
        · exact hws u (by simp) c hc
    · rw [if_neg hfit] at hch
      rcases List.mem_cons.1 hch with rfl | hch
      · exact hcur
      · exact wrapWordsGo_chars cap P hP us u (hws u (by simp))
          (fun v hv => hws v (List.mem_cons_of_mem _ hv)) ch hch

theorem wrapWords_chars (cap : Nat) (P : Char → Prop) (hP : P ' ')
    (ws : List Text) (hws : ∀ u ∈ ws, ∀ c ∈ u, P c) :
    ∀ ch ∈ wrapWords cap ws, ∀ c ∈ ch, P c := by
  match ws with
  | [] => simp [wrapWords]
  | u :: us =>
    exact wrapWordsGo_chars cap P hP us u (hws u (by simp))
      (fun v hv => hws v (List.mem_cons_of_mem _ hv))

/-!  #### parse lemmas -/

theorem parseNumbered_cons_not_digit {c : Char} (l : Text)
    (h : isDigitB c = false) : parseNumbered (c :: l) = none := by
  simp only [parseNumbered]
  rw [if_neg]
  rintro ⟨h1, -, -⟩
  exact h1 (takeWhileB_cons_false l h)

theorem parseNumbered_no_space {l : Text} (hsp : ∀ c ∈ l, c ≠ ' ') :
    parseNumbered l = none := by
  simp only [parseNumbered]
  rw [if_neg]
  rintro ⟨-, h2, -⟩
  have hm : ' ' ∈ (dropWhileB isDigitB l).take 2 := by
    rw [h2]
    simp
  exact hsp ' ' (mem_dropWhileB _ _ _ (List.mem_of_mem_take hm)) rfl

theorem parseNumbered_some {l t content : Text}
    (h : parseNumbered l = some (t, content)) :
    t = takeWhileB isDigitB l ++ '.' :: ' ' ::
        (takeWhileB notColonB ((dropWhileB isDigitB l).drop 2) ++ [':']) ∧
    content = (dropWhileB notColonB ((dropWhileB isDigitB l).drop 2)).tail ∧
    takeWhileB isDigitB l ≠ [] := by
  simp only [parseNumbered] at h
  by_cases hc : takeWhileB isDigitB l ≠ [] ∧
      (dropWhileB isDigitB l).take 2 = ['.', ' '] ∧
      ((dropWhileB isDigitB l).drop 2).any (fun c => c == ':') = true
  · rw [if_pos hc] at h
    obtain ⟨rfl, rfl⟩ := Prod.mk.injEq .. ▸ Option.some.inj h
    exact ⟨rfl, rfl, hc.1⟩
  · rw [if_neg hc] at h
    exact absurd h (by simp)

theorem parseNumbered_title {ds tp : Text} (hds : ds ≠ [])
    (hdig : ∀ c ∈ ds, isDigitB c = true) (htp : ∀ c ∈ tp, c ≠ ':') :
    parseNumbered (ds ++ '.' :: ' ' :: (tp ++ [':'])) =
      some (ds ++ '.' :: ' ' :: (tp ++ [':']), []) := by
  have hT : takeWhileB isDigitB (ds ++ '.' :: ' ' :: (tp ++ [':'])) = ds := by
    rw [takeWhileB_append_all hdig, takeWhileB_cons_false _ (by decide),
      List.append_nil]
  have hD : dropWhileB isDigitB (ds ++ '.' :: ' ' :: (tp ++ [':'])) =
      '.' :: ' ' :: (tp ++ [':']) := by
    rw [dropWhileB_append_all hdig, dropWhileB_cons_false _ (by decide)]
  have htpall : ∀ c ∈ tp, notColonB c = true := by
    intro c hc
    simp [notColonB, htp c hc]
  have hTc : takeWhileB notColonB (tp ++ [':']) = tp := by
    rw [takeWhileB_append_all htpall, takeWhileB_cons_false _ (by decide),
      List.append_nil]
  have hDc : dropWhileB notColonB (tp ++ [':']) = [':'] := by
    rw [dropWhileB_append_all htpall, dropWhileB_cons_false _ (by decide)]
  simp only [parseNumbered, hT, hD]
  rw [if_pos ⟨hds, rfl, by simp⟩]
  rw [List.drop_succ_cons, List.drop_succ_cons, List.drop_zero, hTc, hDc]
  rfl

theorem parseLettered_cons_ne {c : Char} (l : Text) (h : c ≠ '(') :
    parseLettered (c :: l) = none := by
  match l with
  | [] => rfl
  | [_] => rfl
  | [_, _] => rfl
  | b :: d :: e :: rest =>
    simp only [parseLettered]
    rw [if_neg]
    rintro ⟨hc, -⟩
    exact h hc

theorem parseLettered_no_space {l : Text} (hsp : ∀ c ∈ l, c ≠ ' ') :
    parseLettered l = none := by
  match l with
  | [] => rfl
  | [_] => rfl
  | [_, _] => rfl
  | [_, _, _] => rfl
  | a :: b :: c :: d :: rest =>
    simp only [parseLettered]
    rw [if_neg]
    rintro ⟨-, -, -, rfl⟩
    exact hsp ' ' (by simp) rfl

theorem parseLettered_some {l : Text} {b : Char} {rest : Text}
    (h : parseLettered l = some (b, rest)) :
    l = '(' :: b :: ')' :: ' ' :: rest ∧ b.isAlpha = true := by
  match l with
  | [] => exact absurd h (by simp [parseLettered])
  | [_] => exact absurd h (by simp [parseLettered])
  | [_, _] => exact absurd h (by simp [parseLettered])
  | [_, _, _] => exact absurd h (by simp [parseLettered])
  | a :: b0 :: c :: d :: rest0 =>
    simp only [parseLettered] at h
    by_cases hc : a = '(' ∧ b0.isAlpha = true ∧ c = ')' ∧ d = ' '
    · rw [if_pos hc] at h
      obtain ⟨rfl, rfl⟩ := Prod.mk.injEq .. ▸ Option.some.inj h
      obtain ⟨rfl, hb, rfl, rfl⟩ := hc
      exact ⟨rfl, hb⟩
    · rw [if_neg hc] at h
      exact absurd h (by simp)

theorem parseLettered_mk {b : Char} (rest : Text) (hb : b.isAlpha = true) :
    parseLettered ('(' :: b :: ')' :: ' ' :: rest) = some (b, rest) := by
  simp only [parseLettered]
  rw [if_pos ⟨trivial, hb, trivial, trivial⟩]

/-!  #### wrapLine stability -/

theorem wrapLine_short {w : Nat} {l : Text} (h : l.length ≤ w) :
    wrapLine w l = [l] := by
  rw [wrapLine, if_pos h]

theorem wrapLine_nolower {w : Nat} {l : Text} (h : hasLowerB l = false) :
    wrapLine w l = [l] := by
  by_cases hl : l.length ≤ w
  · exact wrapLine_short hl
  · rw [wrapLine, if_neg hl, if_pos h]

theorem indent3_spaces : ∀ c ∈ indent3, c = ' ' := by decide

theorem indent4_spaces : ∀ c ∈ indent4, c = ' ' := by decide

/-- A chunk emitted under an all-space indent re-wraps to itself. -/
theorem piece_stable {w : Nat} {ind ch : Text}
    (hind : ∀ c ∈ ind, c = ' ') (hch : ch ≠ [])
    (hdisj : ch.length ≤ w - ind.length ∨ ∀ c ∈ ch, c ≠ ' ') :
    wrapLine w (ind ++ ch) = [ind ++ ch] := by
  by_cases hlen : (ind ++ ch).length ≤ w
  · exact wrapLine_short hlen
  by_cases hlow : hasLowerB (ind ++ ch) = false
  · exact wrapLine_nolower hlow
  have hsp : ∀ c ∈ ch, c ≠ ' ' := by
    rcases hdisj with hle | hsp
    · exfalso
      rw [List.length_append] at hlen
      have : ch.length = 0 := by omega
      exact hch (List.length_eq_zero.1 this)
    · exact hsp
  obtain ⟨c0, ch', rfl⟩ : ∃ c0 ch', ch = c0 :: ch' := by
    match ch, hch with
    | c0 :: ch', _ => exact ⟨c0, ch', rfl⟩
  have hc0 : c0 ≠ ' ' := hsp c0 (by simp)
  rw [wrapLine, if_neg hlen, if_neg hlow]
  have hnum : parseNumbered (ind ++ c0 :: ch') = none := by
    cases hind0 : ind with
    | nil =>
      rw [List.nil_append]
      exact parseNumbered_no_space hsp
    | cons i ind' =>
      have hi : i = ' ' := hind i (by rw [hind0]; simp)
      subst hi
      rw [List.cons_append]
      exact parseNumbered_cons_not_digit _ (by decide)
  rw [hnum]
  have hlet : parseLettered (ind ++ c0 :: ch') = none := by
    cases hind0 : ind with
    | nil =>
      rw [List.nil_append]
      exact parseLettered_no_space hsp
    | cons i ind' =>
      have hi : i = ' ' := hind i (by rw [hind0]; simp)
      subst hi
      rw [List.cons_append]
      exact parseLettered_cons_ne _ (by decide)
  rw [hlet]
  have hindall : ∀ c ∈ ind, (fun c => c == ' ') c = true := by
    intro c hc
    simp [hind c hc]
  have hT : takeWhileB (fun c => c == ' ') (ind ++ c0 :: ch') = ind := by
    rw [takeWhileB_append_all hindall,
      takeWhileB_cons_false _ (by simp [hc0]), List.append_nil]
  have hD : dropWhileB (fun c => c == ' ') (ind ++ c0 :: ch') = c0 :: ch' := by
    rw [dropWhileB_append_all hindall,
      dropWhileB_cons_false _ (by simp [hc0])]
  rw [wrapIndent, hT, hD, words_single (by simp) hsp]
  rfl

/-- A numbered-clause title line re-wraps to itself. -/
theorem title_stable {w : Nat} {ds tp : Text} (hds : ds ≠ [])
    (hdig : ∀ c ∈ ds, isDigitB c = true) (htp : ∀ c ∈ tp, c ≠ ':') :
    wrapLine w (ds ++ '.' :: ' ' :: (tp ++ [':'])) =
      [ds ++ '.' :: ' ' :: (tp ++ [':'])] := by
  by_cases hlen : (ds ++ '.' :: ' ' :: (tp ++ [':'])).length ≤ w
  · exact wrapLine_short hlen
  by_cases hlow : hasLowerB (ds ++ '.' :: ' ' :: (tp ++ [':'])) = false
  · exact wrapLine_nolower hlow
  rw [wrapLine, if_neg hlen, if_neg hlow,
    parseNumbered_title hds hdig htp]
  simp [wrapIndent, words, wrapWords]

/-- The first line of a wrapped lettered subsection re-wraps to itself. -/
theorem lettered_first_stable {w : Nat} {b : Char} {ch : Text}
    (hb : b.isAlpha = true) (hch : ch ≠ [])
    (hdisj : ch.length ≤ w - 4 ∨ ∀ c ∈ ch, c ≠ ' ') :
    wrapLine w ('(' :: b :: ')' :: ' ' :: ch) =
      [('(' :: b :: ')' :: ' ' :: ch)] := by
  by_cases hlen : ('(' :: b :: ')' :: ' ' :: ch).length ≤ w
  · exact wrapLine_short hlen
  by_cases hlow : hasLowerB ('(' :: b :: ')' :: ' ' :: ch) = false
  · exact wrapLine_nolower hlow
  have hsp : ∀ c ∈ ch, c ≠ ' ' := by
    rcases hdisj with hle | hsp
    · exfalso
      simp only [List.length_cons] at hlen
      have : ch.length = 0 := by omega
      exact hch (List.length_eq_zero.1 this)
    · exact hsp
  rw [wrapLine, if_neg hlen, if_neg hlow,
    parseNumbered_cons_not_digit _ (by decide), parseLettered_mk ch hb]
  simp [words_single hch hsp, wrapWords, wrapWordsGo]

/-- A bare lettered prefix line re-wraps to itself. -/
theorem pfx_stable {w : Nat} {b : Char} (hb : b.isAlpha = true) :
    wrapLine w ['(', b, ')', ' '] = [['(', b, ')', ' ']] := by
  by_cases hlen : (['(', b, ')', ' '] : Text).length ≤ w
  · exact wrapLine_short hlen
  by_cases hlow : hasLowerB ['(', b, ')', ' '] = false
  · exact wrapLine_nolower hlow
  rw [wrapLine, if_neg hlen, if_neg hlow,
    parseNumbered_cons_not_digit _ (by decide)]
  rw [show (['(', b, ')', ' '] : Text) = '(' :: b :: ')' :: ' ' :: [] from rfl,
    parseLettered_mk [] hb]
  simp [words, wrapWords]

/-- Main stability lemma: every line emitted by `wrapLine` re-wraps to
itself. -/
theorem wrapLine_stable (w : Nat) (l : Text) :
    ∀ p ∈ wrapLine w l, wrapLine w p = [p] := by
  by_cases hlen : l.length ≤ w
  · rw [wrapLine_short hlen]
    intro p hp
    rcases List.mem_singleton.1 hp with rfl
    exact wrapLine_short hlen
  by_cases hlow : hasLowerB l = false
  · rw [wrapLine_nolower hlow]
    intro p hp
    rcases List.mem_singleton.1 hp with rfl
    exact wrapLine_nolower hlow
  rw [wrapLine, if_neg hlen, if_neg hlow]
  cases hnum : parseNumbered l with
  | some tc =>
    obtain ⟨t, content⟩ := tc
    obtain ⟨ht, -, hds⟩ := parseNumbered_some hnum
    intro p hp
    have hp' : p ∈ t :: wrapIndent w indent3 content := hp
    rcases List.mem_cons.1 hp' with rfl | hp2
    · rw [ht]
      exact title_stable hds (takeWhileB_all _ _)
        (fun c hc => by simpa [notColonB] using takeWhileB_all notColonB _ c hc)
    · rw [wrapIndent] at hp2
      obtain ⟨ch, hch, rfl⟩ := List.mem_map.1 hp2
      have hgood := wrapWords_good (w - indent3.length) (words content)
        (words_word content) ch hch
      exact piece_stable indent3_spaces hgood.1 hgood.2.2
  | none =>
    cases hlet : parseLettered l with
    | some br =>
      obtain ⟨b, rest⟩ := br
      obtain ⟨-, hb⟩ := parseLettered_some hlet
      show ∀ p ∈ (match wrapWords (w - 4) (words rest) with
        | [] => [['(', b, ')', ' ']]
        | ch :: chs =>
          (['(', b, ')', ' '] ++ ch) :: chs.map (fun ch2 => indent4 ++ ch2)),
        wrapLine w p = [p]
      cases hwr : wrapWords (w - 4) (words rest) with
      | nil =>
        intro p hp
        have hp' : p ∈ [['(', b, ')', ' ']] := hp
        rcases List.mem_singleton.1 hp' with rfl
        exact pfx_stable hb
      | cons ch chs =>
        intro p hp
        have hp' : p ∈ (['(', b, ')', ' '] ++ ch) ::
            chs.map (fun ch2 => indent4 ++ ch2) := hp
        rcases List.mem_cons.1 hp' with rfl | hp2
        · have hgood := wrapWords_good (w - 4) (words rest)
            (words_word rest) ch (by rw [hwr]; simp)
          exact lettered_first_stable hb hgood.1 hgood.2.2
        · obtain ⟨ch2, hch2, rfl⟩ := List.mem_map.1 hp2
          have hgood := wrapWords_good (w - 4) (words rest)
            (words_word rest) ch2 (by rw [hwr]; exact List.mem_cons_of_mem _ hch2)
          exact piece_stable indent4_spaces hgood.1 hgood.2.2
    | none =>
      intro p hp
      have hp' : p ∈ wrapIndent w (takeWhileB (fun c => c == ' ') l)
          (dropWhileB (fun c => c == ' ') l) := hp
      rw [wrapIndent] at hp'
      obtain ⟨ch, hch, rfl⟩ := List.mem_map.1 hp'
      have hgood := wrapWords_good (w - (takeWhileB (fun c => c == ' ') l).length)
        (words (dropWhileB (fun c => c == ' ') l))
        (words_word _) ch hch
      exact piece_stable
        (fun c hc => by simpa using takeWhileB_all (fun c => c == ' ') l c hc)
        hgood.1 hgood.2.2

/-!  #### wrapLine shape lemmas -/

theorem wrapLine_nil (w : Nat) : wrapLine w [] = [[]] :=
  wrapLine_short (by simp)

theorem wrapLine_ne_nil (w : Nat) (l : Text) : wrapLine w l ≠ [] := by
  by_cases hlen : l.length ≤ w
  · rw [wrapLine_short hlen]
    simp
  by_cases hlow : hasLowerB l = false
  · rw [wrapLine_nolower hlow]
    simp
  rw [wrapLine, if_neg hlen, if_neg hlow]
  cases hnum : parseNumbered l with
  | some tc =>
    obtain ⟨t, content⟩ := tc
    simp
  | none =>
    cases hlet : parseLettered l with
    | some br =>
      obtain ⟨b, rest⟩ := br
      show (match wrapWords (w - 4) (words rest) with
        | [] => [['(', b, ')', ' ']]
        | ch :: chs =>
          (['(', b, ')', ' '] ++ ch) :: chs.map (fun ch2 => indent4 ++ ch2)) ≠ []
      cases wrapWords (w - 4) (words rest) <;> simp
    | none =>
      show wrapIndent w (takeWhileB (fun c => c == ' ') l)
        (dropWhileB (fun c => c == ' ') l) ≠ []
      obtain ⟨x, hx, hxl⟩ : ∃ c ∈ l, c.isLower = true := by
        have : hasLowerB l = true := by
          cases h : hasLowerB l
          · exact absurd h hlow
          · rfl
        simpa [hasLowerB] using this
      have hxs : x ≠ ' ' := by
        intro h
        rw [h] at hxl
        exact absurd hxl (by decide)
      have hxd : x ∈ dropWhileB (fun c => c == ' ') l := by
        rw [← takeWhileB_append_dropWhileB (fun c => c == ' ') l] at hx
        rcases List.mem_append.1 hx with hx | hx
        · exact absurd (by simpa using takeWhileB_all _ l x hx) hxs
        · exact hx
      have hw := words_ne_nil hxd hxs
      rw [wrapIndent]
      match hwd : words (dropWhileB (fun c => c == ' ') l), hw with
      | u :: us, _ =>
        rw [wrapWords]
        simp [wrapWordsGo_ne_nil]

theorem wrapLine_nonblank (w : Nat) (l : Text) (hnb : ∃ c ∈ l, c ≠ ' ') :
    ∀ p ∈ wrapLine w l, ∃ c ∈ p, c ≠ ' ' := by
  by_cases hlen : l.length ≤ w
  · rw [wrapLine_short hlen]
    intro p hp
    rcases List.mem_singleton.1 hp with rfl
    exact hnb
  by_cases hlow : hasLowerB l = false
  · rw [wrapLine_nolower hlow]
    intro p hp
    rcases List.mem_singleton.1 hp with rfl
    exact hnb
  rw [wrapLine, if_neg hlen, if_neg hlow]
  cases hnum : parseNumbered l with
  | some tc =>
    obtain ⟨t, content⟩ := tc
    obtain ⟨ht, -, -⟩ := parseNumbered_some hnum
    intro p hp
    have hp' : p ∈ t :: wrapIndent w indent3 content := hp
    rcases List.mem_cons.1 hp' with rfl | hp2
    · exact ⟨'.', by rw [ht]; simp, by decide⟩
    · rw [wrapIndent] at hp2
      obtain ⟨ch, hch, rfl⟩ := List.mem_map.1 hp2
      obtain ⟨c, hc, hcs⟩ := (wrapWords_good _ _ (words_word content) ch hch).2.1
      exact ⟨c, List.mem_append_right _ hc, hcs⟩
  | none =>
    cases hlet : parseLettered l with
    | some br =>
      obtain ⟨b, rest⟩ := br
      show ∀ p ∈ (match wrapWords (w - 4) (words rest) with
        | [] => [['(', b, ')', ' ']]
        | ch :: chs =>
          (['(', b, ')', ' '] ++ ch) :: chs.map (fun ch2 => indent4 ++ ch2)),
        ∃ c ∈ p, c ≠ ' '
      cases hwr : wrapWords (w - 4) (words rest) with
      | nil =>
        intro p hp
        rcases List.mem_singleton.1 hp with rfl
        exact ⟨'(', by simp, by decide⟩
      | cons ch chs =>
        intro p hp
        rcases List.mem_cons.1 hp with rfl | hp2
        · exact ⟨'(', by simp, by decide⟩
        · obtain ⟨ch2, hch2, rfl⟩ := List.mem_map.1 hp2
          obtain ⟨c, hc, hcs⟩ := (wrapWords_good _ _ (words_word rest) ch2
            (by rw [hwr]; exact List.mem_cons_of_mem _ hch2)).2.1
          exact ⟨c, List.mem_append_right _ hc, hcs⟩
    | none =>
      intro p hp
      have hp' : p ∈ wrapIndent w (takeWhileB (fun c => c == ' ') l)
          (dropWhileB (fun c => c == ' ') l) := hp
      rw [wrapIndent] at hp'
      obtain ⟨ch, hch, rfl⟩ := List.mem_map.1 hp'
      obtain ⟨c, hc, hcs⟩ := (wrapWords_good _ _ (words_word _) ch hch).2.1
      exact ⟨c, List.mem_append_right _ hc, hcs⟩

theorem wrapLine_chars (w : Nat) (l : Text) (P : Char → Prop) (hPsp : P ' ')
    (hPdot : P '.') (hPcol : P ':') (hl : ∀ c ∈ l, P c) :
    ∀ p ∈ wrapLine w l, ∀ c ∈ p, P c := by
  by_cases hlen : l.length ≤ w
  · rw [wrapLine_short hlen]
    intro p hp
    rcases List.mem_singleton.1 hp with rfl
    exact hl
  by_cases hlow : hasLowerB l = false
  · rw [wrapLine_nolower hlow]
    intro p hp
    rcases List.mem_singleton.1 hp with rfl
    exact hl
  rw [wrapLine, if_neg hlen, if_neg hlow]
  cases hnum : parseNumbered l with
  | some tc =>
    obtain ⟨t, content⟩ := tc
    obtain ⟨ht, hcontent, -⟩ := parseNumbered_some hnum
    have hcont : ∀ c ∈ content, P c := by
      intro c hc
      rw [hcontent] at hc
      exact hl c (mem_dropWhileB _ _ c
        (List.mem_of_mem_drop (mem_dropWhileB _ _ c (List.mem_of_mem_tail hc))))
    intro p hp
    have hp' : p ∈ t :: wrapIndent w indent3 content := hp
    rcases List.mem_cons.1 hp' with rfl | hp2
    · intro c hc
      rw [ht] at hc
      rcases List.mem_append.1 hc with hc | hc
      · exact hl c (mem_takeWhileB _ _ c hc)
      · rcases List.mem_cons.1 hc with rfl | hc
        · exact hPdot
        · rcases List.mem_cons.1 hc with rfl | hc
          · exact hPsp
          · rcases List.mem_append.1 hc with hc | hc
            · exact hl c (mem_dropWhileB _ _ c
                (List.mem_of_mem_drop (mem_takeWhileB _ _ c hc)))
            · rcases List.mem_singleton.1 hc with rfl
              exact hPcol
    · rw [wrapIndent] at hp2
      obtain ⟨ch, hch, rfl⟩ := List.mem_map.1 hp2
      intro c hc
      rcases List.mem_append.1 hc with hc | hc
      · rw [indent3_spaces c hc]
        exact hPsp
      · exact wrapWords_chars _ P hPsp (words content)
          (fun u hu x hx => hcont x (words_mem content u hu x hx)) ch hch c hc
  | none =>
    cases hlet : parseLettered l with
    | some br =>
      obtain ⟨b, rest⟩ := br
      obtain ⟨hshape, -⟩ := parseLettered_some hlet
      have hrest : ∀ c ∈ rest, P c := by
        intro c hc
        exact hl c (by rw [hshape]; simp [hc])
      have hpfx : ∀ c ∈ (['(', b, ')', ' '] : Text), P c := by
        intro c hc
        rcases List.mem_cons.1 hc with rfl | hc
        · exact hl _ (by rw [hshape]; simp)
        · rcases List.mem_cons.1 hc with rfl | hc
          · exact hl _ (by rw [hshape]; simp)
          · rcases List.mem_cons.1 hc with rfl | hc
            · exact hl _ (by rw [hshape]; simp)
            · rcases List.mem_singleton.1 hc with rfl
              exact hPsp
      show ∀ p ∈ (match wrapWords (w - 4) (words rest) with
        | [] => [['(', b, ')', ' ']]
        | ch :: chs =>
          (['(', b, ')', ' '] ++ ch) :: chs.map (fun ch2 => indent4 ++ ch2)),
        ∀ c ∈ p, P c
      cases hwr : wrapWords (w - 4) (words rest) with
      | nil =>
        intro p hp
        rcases List.mem_singleton.1 hp with rfl
        exact hpfx
      | cons ch chs =>
        intro p hp
        rcases List.mem_cons.1 hp with rfl | hp2
        · intro c hc
          rcases List.mem_append.1 hc with hc | hc
          · exact hpfx c hc
          · exact wrapWords_chars _ P hPsp (words rest)
              (fun u hu x hx => hrest x (words_mem rest u hu x hx)) ch
              (by rw [hwr]; simp) c hc
        · obtain ⟨ch2, hch2, rfl⟩ := List.mem_map.1 hp2
          intro c hc
          rcases List.mem_append.1 hc with hc | hc
          · rw [indent4_spaces c hc]
            exact hPsp
          · exact wrapWords_chars _ P hPsp (words rest)
              (fun u hu x hx => hrest x (words_mem rest u hu x hx)) ch2
              (by rw [hwr]; exact List.mem_cons_of_mem _ hch2) c hc
    | none =>
      intro p hp
      have hp' : p ∈ wrapIndent w (takeWhileB (fun c => c == ' ') l)
          (dropWhileB (fun c => c == ' ') l) := hp
      rw [wrapIndent] at hp'
      obtain ⟨ch, hch, rfl⟩ := List.mem_map.1 hp'
      intro c hc
      rcases List.mem_append.1 hc with hc | hc
      · exact hl c (mem_takeWhileB _ _ c hc)
      · exact wrapWords_chars _ P hPsp (words (dropWhileB (fun c => c == ' ') l))
          (fun u hu x hx => hl x (mem_dropWhileB _ _ x
            (words_mem _ u hu x hx))) ch hch c hc

/-!  #### canon / dedup / adjacency lemmas -/

theorem bool_not_true {b : Bool} (h : (!b) = true) : ¬(b = true) := by
  cases b
  · simp
  · simp at h

theorem bool_not_of_not {b : Bool} (h : ¬(b = true)) : (!b) = true := by
  cases b
  · rfl
  · exact absurd rfl h

theorem canon_nonblank {l : Text} (h : ∃ c ∈ l, c ≠ ' ') : canon l = l := by
  rw [canon, if_neg]
  intro hb
  obtain ⟨c, hc, hcs⟩ := h
  exact hcs (by simpa using (List.all_eq_true.1 hb) c hc)

theorem canon_shape (l : Text) : canon l = [] ∨ ∃ c ∈ canon l, c ≠ ' ' := by
  by_cases hb : isBlankB l = true
  · left
    rw [canon, if_pos hb]
  · right
    rw [canon, if_neg hb]
    rw [isBlankB] at hb
    obtain ⟨c, hc, hcs⟩ := by simpa using List.all_eq_true.not.1 hb
    exact ⟨c, hc, by simpa using hcs⟩

theorem dedup_cons_head : ∀ (r : List Text) (b : Text),
    ∃ h t, dedup (b :: r) = h :: t ∧ h.isEmpty = b.isEmpty
  | [], b => ⟨b, [], rfl, rfl⟩
  | c :: r, b => by
    by_cases hbc : (b.isEmpty && c.isEmpty) = true
    · obtain ⟨h, t, hd, he⟩ := dedup_cons_head r c
      refine ⟨h, t, ?_, ?_⟩
      · rw [dedup, if_pos hbc, hd]
      · rw [he]
        have := Bool.and_eq_true_iff.1 hbc
        rw [this.2, this.1]
    · exact ⟨b, dedup (c :: r), by rw [dedup, if_neg hbc], rfl⟩

theorem dedup_eq_self : ∀ {ls : List Text}, noAdjBlank ls = true → dedup ls = ls
  | [], _ => rfl
  | [a], _ => rfl
  | a :: b :: r, h => by
    rw [noAdjBlank, Bool.and_eq_true_iff] at h
    rw [dedup, if_neg (bool_not_true h.1), dedup_eq_self h.2]

theorem noAdjBlank_dedup : ∀ ls : List Text, noAdjBlank (dedup ls) = true
  | [] => rfl
  | [a] => rfl
  | a :: b :: r => by
    by_cases hab : (a.isEmpty && b.isEmpty) = true
    · rw [dedup, if_pos hab]
      exact noAdjBlank_dedup (b :: r)
    · rw [dedup, if_neg hab]
      obtain ⟨h, t, hd, he⟩ := dedup_cons_head r b
      have hrec := noAdjBlank_dedup (b :: r)
      rw [hd] at hrec
      rw [hd, noAdjBlank, Bool.and_eq_true_iff]
      refine ⟨?_, hrec⟩
      rw [he]
      exact bool_not_of_not hab

theorem dedup_subset : ∀ {ls : List Text} {x : Text}, x ∈ dedup ls → x ∈ ls
  | [], x, hx => by simp [dedup] at hx
  | [a], x, hx => by simpa [dedup] using hx
  | a :: b :: r, x, hx => by
    by_cases hab : (a.isEmpty && b.isEmpty) = true
    · rw [dedup, if_pos hab] at hx
      exact List.mem_cons_of_mem _ (dedup_subset hx)
    · rw [dedup, if_neg hab] at hx
      rcases List.mem_cons.1 hx with rfl | hx
      · simp
      · exact List.mem_cons_of_mem _ (dedup_subset hx)

theorem dedup_ne_nil : ∀ {ls : List Text}, ls ≠ [] → dedup ls ≠ []
  | [], h => absurd rfl h
  | b :: r, _ => by
    obtain ⟨h, t, hd, -⟩ := dedup_cons_head r b
    rw [hd]
    simp

theorem noAdjBlank_tail {a : Text} : ∀ {ls : List Text},
    noAdjBlank (a :: ls) = true → noAdjBlank ls = true
  | [], _ => rfl
  | b :: r, h => by
    rw [noAdjBlank, Bool.and_eq_true_iff] at h
    exact h.2

theorem all_nonblank_noAdj : ∀ {xs : List Text},
    (∀ p ∈ xs, p.isEmpty = false) → noAdjBlank xs = true
  | [], _ => rfl
  | [a], _ => rfl
  | a :: b :: r, h => by
    rw [noAdjBlank, Bool.and_eq_true_iff]
    refine ⟨?_, all_nonblank_noAdj (fun p hp => h p (List.mem_cons_of_mem _ hp))⟩
    rw [h a (by simp)]
    simp

theorem mem_of_getLast?T : ∀ {ls : List Text} {x : Text},
    ls.getLast? = some x → x ∈ ls
  | [], x, h => by simp at h
  | [a], x, h => by
    have ha : a = x := by simpa using h
    rw [← ha]
    simp
  | a :: b :: r, x, h => by
    rw [List.getLast?_cons_cons] at h
    exact List.mem_cons_of_mem _ (mem_of_getLast?T h)

theorem head?_append_left {l₁ l₂ : List Text} (h : l₁ ≠ []) :
    (l₁ ++ l₂).head? = l₁.head? := by
  match l₁, h with
  | a :: t, _ => rfl

theorem noAdjBlank_append : ∀ {xs : List Text} (ys : List Text),
    noAdjBlank xs = true → noAdjBlank ys = true →
    (∀ x, xs.getLast? = some x → ∀ y, ys.head? = some y →
      (x.isEmpty && y.isEmpty) = false) →
    noAdjBlank (xs ++ ys) = true
  | [], ys, _, hys, _ => hys
  | [a], ys, _, hys, hb => by
    match ys with
    | [] => rfl
    | y :: u =>
      rw [List.singleton_append, noAdjBlank, Bool.and_eq_true_iff]
      refine ⟨?_, hys⟩
      rw [hb a rfl y rfl]
      rfl
  | a :: b :: t, ys, hxs, hys, hb => by
    rw [noAdjBlank, Bool.and_eq_true_iff] at hxs
    rw [List.cons_append, List.cons_append, noAdjBlank, Bool.and_eq_true_iff]
    refine ⟨hxs.1, ?_⟩
    rw [← List.cons_append]
    refine noAdjBlank_append ys hxs.2 hys ?_
    intro x hx y hy
    exact hb x (by rw [List.getLast?_cons_cons]; exact hx) y hy

theorem mem_concatMap {f : Text → List Text} : ∀ {ls : List Text} {x : Text},
    x ∈ concatMap f ls → ∃ l ∈ ls, x ∈ f l
  | [], x, hx => by simp [concatMap] at hx
  | l :: ls, x, hx => by
    rw [concatMap] at hx
    rcases List.mem_append.1 hx with hx | hx
    · exact ⟨l, by simp, hx⟩
    · obtain ⟨l', hl', hx'⟩ := mem_concatMap hx
      exact ⟨l', List.mem_cons_of_mem _ hl', hx'⟩

theorem concatMap_id_of {f : Text → List Text} : ∀ {ls : List Text},
    (∀ x ∈ ls, f x = [x]) → concatMap f ls = ls
  | [], _ => rfl
  | l :: ls, h => by
    rw [concatMap, h l (by simp),
      concatMap_id_of (fun x hx => h x (List.mem_cons_of_mem _ hx))]
    rfl

theorem concatMap_ne_nil {f : Text → List Text} {ls : List Text}
    (h0 : ls ≠ []) (h : ∀ x ∈ ls, f x ≠ []) : concatMap f ls ≠ [] := by
  match ls, h0 with
  | l :: ls, _ =>
    rw [concatMap]
    intro hc
    rcases List.append_eq_nil.1 hc with ⟨h1, -⟩
    exact h l (by simp) h1

theorem map_eq_self_of {f : Text → Text} : ∀ {ls : List Text},
    (∀ x ∈ ls, f x = x) → ls.map f = ls
  | [], _ => rfl
  | l :: ls, h => by
    rw [List.map_cons, h l (by simp),
      map_eq_self_of (fun x hx => h x (List.mem_cons_of_mem _ hx))]

/-- Lines emitted by wrapping a blank-collapsed line list never put two
blank lines next to each other. -/
theorem noAdjBlank_concatMap (w : Nat) : ∀ (ls : List Text),
    noAdjBlank ls = true → (∀ l ∈ ls, l = [] ∨ ∃ c ∈ l, c ≠ ' ') →
    noAdjBlank (concatMap (wrapLine w) ls) = true
  | [], _, _ => rfl
  | l :: ls, hadj, hsh => by
    rw [concatMap]
    have hpieces : ∀ (m : Text), (m = [] ∨ ∃ c ∈ m, c ≠ ' ') →
        ∀ p ∈ wrapLine w m, (m = [] → p = []) ∧ (m ≠ [] → p.isEmpty = false) := by
      intro m hm p hp
      constructor
      · intro hm0
        subst hm0
        rw [wrapLine_nil] at hp
        exact List.mem_singleton.1 hp
      · intro hm0
        rcases hm with rfl | hm
        · exact absurd rfl hm0
        · obtain ⟨c, hc, hcs⟩ := wrapLine_nonblank w m hm p hp
          match p, hc with
          | _ :: _, _ => rfl
    refine noAdjBlank_append _ ?_ ?_ ?_
    · rcases hsh l (by simp) with rfl | hnb
      · rw [wrapLine_nil]
        rfl
      · exact all_nonblank_noAdj (fun p hp =>
          ((hpieces l (Or.inr hnb) p hp).2 (by
            rintro rfl
            obtain ⟨c, hc, -⟩ := hnb
            simp at hc)))
    · exact noAdjBlank_concatMap w ls (noAdjBlank_tail hadj)
        (fun m hm => hsh m (List.mem_cons_of_mem _ hm))
    · intro x hx y hy
      match ls with
      | [] =>
        rw [show concatMap (wrapLine w) ([] : List Text) = [] from rfl] at hy
        simp at hy
      | l₁ :: ls' =>
        rw [show concatMap (wrapLine w) (l₁ :: ls') =
          wrapLine w l₁ ++ concatMap (wrapLine w) ls' from rfl,
          head?_append_left (wrapLine_ne_nil w l₁)] at hy
        have hymem : y ∈ wrapLine w l₁ := by
          cases hwl : wrapLine w l₁ with
          | nil => exact absurd hwl (wrapLine_ne_nil w l₁)
          | cons p ps =>
            rw [hwl, List.head?_cons] at hy
            rw [← Option.some.inj hy]
            simp
        have hxmem : x ∈ wrapLine w l := mem_of_getLast?T hx
        by_cases hl0 : l = []
        · have hl₁ne : l₁.isEmpty = false := by
            subst hl0
            rw [noAdjBlank, Bool.and_eq_true_iff] at hadj
            have h1 := hadj.1
            cases hE : l₁.isEmpty
            · rfl
            · rw [hE] at h1
              simp at h1
          have hl₁nb : ∃ c ∈ l₁, c ≠ ' ' := by
            rcases hsh l₁ (by simp) with h | h
            · rw [h] at hl₁ne
              simp at hl₁ne
            · exact h
          have hyne : y.isEmpty = false :=
            (hpieces l₁ (Or.inr hl₁nb) y hymem).2
              (by
                intro h0
                rw [h0] at hl₁ne
                simp at hl₁ne)
          rw [hyne]
          simp
        · have hlnb : ∃ c ∈ l, c ≠ ' ' := by
            rcases hsh l (by simp) with h | h
            · exact absurd h hl0
            · exact h
          have hxne : x.isEmpty = false :=
            (hpieces l (Or.inr hlnb) x hxmem).2 hl0
          rw [hxne]
          simp

/-!  #### normCore idempotence -/

theorem mem_canon {c : Char} {l : Text} (hc : c ∈ canon l) : c ∈ l := by
  by_cases hb : isBlankB l = true
  · rw [canon, if_pos hb] at hc
    simp at hc
  · rw [canon, if_neg hb] at hc
    exact hc

/-- The line-level normalizer core is idempotent: its output is stripped,
blank-collapsed and wrap-stable, so running it again changes nothing. -/
theorem normCore_idem (w : Nat) (ls : List Text) :
    normCore w (normCore w ls) = normCore w ls := by
  have key : ∀ (mid : List Text),
      (∀ l ∈ mid, l = [] ∨ ∃ c ∈ l, c ≠ ' ') →
      (∀ l ∈ mid, ∀ c ∈ l, keepChar c = true) →
      noAdjBlank mid = true →
      normCore w (concatMap (wrapLine w) mid) = concatMap (wrapLine w) mid := by
    intro mid hsh hkeep hadj
    have hout_keep : ∀ p ∈ concatMap (wrapLine w) mid, ∀ c ∈ p,
        keepChar c = true := by
      intro p hp
      obtain ⟨l, hl, hpl⟩ := mem_concatMap hp
      exact wrapLine_chars w l (fun c => keepChar c = true) (by decide)
        (by decide) (by decide) (hkeep l hl) p hpl
    have hout_sh : ∀ p ∈ concatMap (wrapLine w) mid,
        p = [] ∨ ∃ c ∈ p, c ≠ ' ' := by
      intro p hp
      obtain ⟨l, hl, hpl⟩ := mem_concatMap hp
      rcases hsh l hl with rfl | hnb
      · rw [wrapLine_nil] at hpl
        exact Or.inl (List.mem_singleton.1 hpl)
      · exact Or.inr (wrapLine_nonblank w l hnb p hpl)
    have h1 : (concatMap (wrapLine w) mid).map stripLine =
        concatMap (wrapLine w) mid :=
      map_eq_self_of (fun p hp => by
        rw [stripLine]
        exact List.filter_eq_self.2 (hout_keep p hp))
    have h2 : (concatMap (wrapLine w) mid).map canon =
        concatMap (wrapLine w) mid :=
      map_eq_self_of (fun p hp => by
        rcases hout_sh p hp with rfl | hnb
        · rfl
        · exact canon_nonblank hnb)
    have h3 : dedup (concatMap (wrapLine w) mid) = concatMap (wrapLine w) mid :=
      dedup_eq_self (noAdjBlank_concatMap w mid hadj hsh)
    have h4 : concatMap (wrapLine w) (concatMap (wrapLine w) mid) =
        concatMap (wrapLine w) mid :=
      concatMap_id_of (fun p hp => by
        obtain ⟨l, hl, hpl⟩ := mem_concatMap hp
        exact wrapLine_stable w l p hpl)
    rw [normCore, h1, h2, h3, h4]
  have hsh0 : ∀ l ∈ dedup ((ls.map stripLine).map canon),
      l = [] ∨ ∃ c ∈ l, c ≠ ' ' := by
    intro l hl
    obtain ⟨l₀, -, rfl⟩ := List.mem_map.1 (dedup_subset hl)
    exact canon_shape l₀
  have hkeep0 : ∀ l ∈ dedup ((ls.map stripLine).map canon),
      ∀ c ∈ l, keepChar c = true := by
    intro l hl c hc
    obtain ⟨l₀, hl₀, rfl⟩ := List.mem_map.1 (dedup_subset hl)
    obtain ⟨l₁, -, rfl⟩ := List.mem_map.1 hl₀
    have hc' : c ∈ stripLine l₁ := mem_canon hc
    rw [stripLine] at hc'
    exact List.of_mem_filter hc'
  exact key _ hsh0 hkeep0 (noAdjBlank_dedup _)

/-!  #### splitOnChar / joinSep roundtrip -/

theorem splitOnChar_ne_nil (sep : Char) : ∀ t : Text, splitOnChar sep t ≠ []
  | [] => by simp [splitOnChar]
  | c :: cs => by
    rw [splitOnChar]
    by_cases h : c = sep
    · rw [if_pos h]
      simp
    · rw [if_neg h]
      cases splitOnChar sep cs <;> simp

theorem mem_splitOnChar_free (sep : Char) :
    ∀ t : Text, ∀ l ∈ splitOnChar sep t, sep ∉ l
  | [] => by
    intro l hl
    rw [splitOnChar] at hl
    rcases List.mem_singleton.1 hl with rfl
    simp
  | c :: cs => by
    intro l hl
    rw [splitOnChar] at hl
    by_cases h : c = sep
    · rw [if_pos h] at hl
      rcases List.mem_cons.1 hl with rfl | hl'
      · simp
      · exact mem_splitOnChar_free sep cs l hl'
    · rw [if_neg h] at hl
      cases hs : splitOnChar sep cs with
      | nil => exact absurd hs (splitOnChar_ne_nil sep cs)
      | cons t ts =>
        rw [hs] at hl
        rcases List.mem_cons.1 hl with rfl | hl'
        · intro hmem
          rcases List.mem_cons.1 hmem with rfl | hmem'
          · exact h rfl
          · exact mem_splitOnChar_free sep cs t (hs ▸ List.mem_cons_self t ts)
              hmem'
        · exact mem_splitOnChar_free sep cs l (hs ▸ List.mem_cons_of_mem t hl')

theorem splitOnChar_single (sep : Char) :
    ∀ t : Text, sep ∉ t → splitOnChar sep t = [t]
  | [], _ => by simp [splitOnChar]
  | c :: cs, h => by
    have hc : ¬c = sep := fun hcs => h (hcs ▸ List.mem_cons_self c cs)
    have hcs : sep ∉ cs := fun hm => h (List.mem_cons_of_mem c hm)
    rw [splitOnChar, if_neg hc, splitOnChar_single sep cs hcs]

theorem splitOnChar_append (sep : Char) :
    ∀ t : Text, sep ∉ t →
      ∀ r : Text, splitOnChar sep (t ++ sep :: r) = t :: splitOnChar sep r
  | [], _, r => by
    rw [List.nil_append, splitOnChar, if_pos rfl]
  | c :: cs, h, r => by
    have hc : ¬c = sep := fun hcs => h (hcs ▸ List.mem_cons_self c cs)
    have hcs : sep ∉ cs := fun hm => h (List.mem_cons_of_mem c hm)
    rw [List.cons_append, splitOnChar, if_neg hc,
      splitOnChar_append sep cs hcs r]

theorem splitOnChar_joinSep (sep : Char) :
    ∀ ls : List Text, ls ≠ [] → (∀ t ∈ ls, sep ∉ t) →
      splitOnChar sep (joinSep sep ls) = ls
  | [], h0, _ => absurd rfl h0
  | [t], _, hfree => by
    rw [joinSep]
    exact splitOnChar_single sep t (hfree t (List.mem_singleton.2 rfl))
  | t :: t' :: ts, _, hfree => by
    rw [joinSep, splitOnChar_append sep t (hfree t (List.mem_cons_self _ _)),
      splitOnChar_joinSep sep (t' :: ts) (by simp)
        (fun u hu => hfree u (List.mem_cons_of_mem t hu))]

/-- Every line produced by `normCore` on the split of an input text is
newline-free: the split lines are newline-free, stripping and blank
canonicalisation only remove characters, and wrapping inserts only spaces. -/
theorem normCore_split_free (w : Nat) (x : Text) :
    ∀ p ∈ normCore w (splitOnChar '\n' x), '\n' ∉ p := by
  intro p hp
  rw [normCore] at hp
  obtain ⟨l, hl, hpl⟩ := mem_concatMap hp
  obtain ⟨l₀, hl₀, rfl⟩ := List.mem_map.1 (dedup_subset hl)
  obtain ⟨l₁, hl₁, rfl⟩ := List.mem_map.1 hl₀
  have hfree : ∀ c ∈ canon (stripLine l₁), ¬c = '\n' := by
    intro c hc hcn
    have : c ∈ l₁ := by
      have h1 : c ∈ stripLine l₁ := mem_canon hc
      rw [stripLine] at h1
      exact List.mem_of_mem_filter h1
    exact mem_splitOnChar_free '\n' x l₁ hl₁ (hcn ▸ this)
  intro hmem
  exact wrapLine_chars w _ (fun c => ¬c = '\n') (by decide) (by decide)
    (by decide) hfree p hpl '\n' hmem rfl

theorem normCore_split_ne_nil (w : Nat) (x : Text) :
    normCore w (splitOnChar '\n' x) ≠ [] := by
  rw [normCore]
  refine concatMap_ne_nil (dedup_ne_nil ?_) (fun l _ => wrapLine_ne_nil w l)
  simp [splitOnChar_ne_nil '\n' x]

/-- C4. The Output Normalizer is idempotent: normalizing an already
normalized text (at the same width) changes nothing — strip, blank-collapse
and wrap are all fixpoints on normalizer output. -/
theorem C4_normalize_idempotent (w : Nat) (x : Text) :
    normalize w (normalize w x) = normalize w x := by
  rw [normalize, normalize,
    splitOnChar_joinSep '\n' (normCore w (splitOnChar '\n' x))
      (normCore_split_ne_nil w x) (normCore_split_free w x),
    normCore_idem]

end LegalAi
